import Mathlib

/-!
# Verification of the event-management attendance core (TallerPractico)

Shallow embedding of the capacity-safe attendance registration subsystem:

* entity layer: `src/domain/entities/Event.ts` (`Event`, `Participant`,
  `Attendance`, `AttendanceStatus` and their status-transition methods);
* persistence: the three tables of `src/infrastructure/database/init.sql`
  (with their CHECK constraints) and the repositories
  (`EventRepository`, `ParticipantRepository`, `AttendanceRepository`);
* services: `AttendanceService` (the second, timeout-bearing revision in
  `src/domain/services/ParticipantService.ts`, the one with the
  `NODE_ENV === 'test'` lock bypass), `EventService`, and the in-memory
  cache (`memoryCacheService` of `src/infrastructure/config/cache.ts`
  and `CacheService` of `src/infrastructure/cache/CacheService.ts`).

Modelling conventions, fixed once here:

* JS numbers that hold integer quantities (`capacity`, `available_spots`,
  TTLs) become `Int`; `Date` values become `Int` instants (`Date.now()`
  order is all the code uses).
* Database-generated UUIDs: event and participant ids stay opaque
  `String`s (they are interpolated into cache keys); attendance ids are
  abstracted as `Nat`s drawn from a fresh-id counter `nextAttendanceId`
  (nothing in the code inspects their format, only equality).
* A table is a `List` of rows in insertion order.  SQL `ORDER BY`
  clauses are not modelled: no claim depends on result order, and the
  two executions compared by the cache-transparency claim issue
  identical reads, so a common deterministic order cancels out.
* Audit columns `created_at` / `updated_at` (maintained by a trigger)
  are not modelled; no claim mentions them.  `registration_date` is.
* The transactional structure of `registerAttendance` /
  `cancelAttendance` is modelled exactly as the code behaves: the only
  statements issued on the transaction `client` are the event-row
  SELECT and the single counter UPDATE, so a rollback discards at most
  that UPDATE.  The attendance INSERT/UPDATE goes through
  `AttendanceRepository`, which holds its own `pool` connection in
  autocommit mode — those writes are durable immediately and are *not*
  undone by the service's ROLLBACK.  The Boolean `failDec` / `failInc`
  arguments inject a storage error at the counter UPDATE (the failure
  case the spec's step 7 talks about); `false` everywhere recovers the
  failure-free run.
* Errors: the code throws `Error` objects with Spanish messages; each
  throw site gets one constructor of `SvcError` (message quoted at the
  constructor).
-/

deriving instance DecidableEq for Except

inductive AttendanceStatus where
  | registered
  | confirmed
  | cancelled
  | attended
deriving DecidableEq, Repr

/-- Event entity / `events` row (`EventModel` identifies
`available_spots` with `availableSpots`). -/
structure Event where
  id : String
  name : String
  description : String
  date : Int
  location : String
  capacity : Int
  availableSpots : Int
deriving DecidableEq, Repr

/-- Participant entity / `participants` row. -/
structure Participant where
  id : String
  name : String
  email : String
  phone : String
deriving DecidableEq, Repr

/-- Attendance entity / `attendances` row (`AttendanceModel` identifies
`registration_date` with `registrationDate`). -/
structure Attendance where
  id : Nat
  eventId : String
  participantId : String
  status : AttendanceStatus
  registrationDate : Int
deriving DecidableEq, Repr

/-- `Event.hasAvailableSpots` — `return this.availableSpots > 0`. -/
def Event.hasAvailableSpots (e : Event) : Bool :=
  decide (0 < e.availableSpots)

/-- `Event.increaseSpots` — adds `amount` when the result stays within
`capacity`, otherwise does nothing (no error is thrown). -/
def Event.increaseSpots (e : Event) (amount : Int) : Event :=
  if e.availableSpots + amount ≤ e.capacity then
    { e with availableSpots := e.availableSpots + amount }
  else
    e

/-- `Event.reduceSpots` — subtracts `amount` when enough spots remain,
otherwise throws `'No hay suficientes cupos disponibles'` (`none`). -/
def Event.reduceSpots (e : Event) (amount : Int) : Option Event :=
  if amount ≤ e.availableSpots then
    some { e with availableSpots := e.availableSpots - amount }
  else
    none

/-- One constructor per throw site of the embedded services. -/
inductive SvcError where
  /-- `'El evento no existe'` and `updateEvent`'s `'Evento no encontrado'`. -/
  | eventNotFound
  /-- `'El participante no existe'`. -/
  | participantNotFound
  /-- `'No hay cupos disponibles para este evento'`. -/
  | noAvailableSpots
  /-- `'El participante ya está registrado en este evento'`. -/
  | alreadyRegistered
  /-- `'Registro de asistencia no encontrado'`. -/
  | attendanceNotFound
  /-- `'La asistencia ya está cancelada'`. -/
  | alreadyCancelled
  /-- `Attendance.confirm`: `'No se puede confirmar una asistencia cancelada'`. -/
  | cannotConfirmCancelled
  /-- `Attendance.cancel`: `'No se puede cancelar una asistencia ya completada'`. -/
  | cannotCancelAttended
  /-- `Attendance.markAsAttended`: `'No se puede marcar como asistido una asistencia cancelada'`. -/
  | cannotAttendCancelled
  /-- `createEvent`: `'La capacidad debe ser mayor a 0'`. -/
  | invalidCapacity
  /-- `createEvent`: `'La fecha del evento no puede ser en el pasado'`. -/
  | pastDate
  /-- `updateEvent`: `'No se puede reducir la capacidad …'`. -/
  | capacityBelowOccupied
  /-- A storage-layer error surfaced by `pg` (an injected connection
  failure, or a violated CHECK constraint of `init.sql`). -/
  | storageError
deriving DecidableEq, Repr

/-- `Attendance.confirm` — only a cancelled attendance is rejected. -/
def Attendance.confirm (a : Attendance) : Except SvcError Attendance :=
  if a.status = .cancelled then
    .error .cannotConfirmCancelled
  else
    .ok { a with status := .confirmed }

/-- `Attendance.cancel` — only an attended attendance is rejected. -/
def Attendance.cancel (a : Attendance) : Except SvcError Attendance :=
  if a.status = .attended then
    .error .cannotCancelAttended
  else
    .ok { a with status := .cancelled }

/-- `Attendance.markAsAttended` — only a cancelled attendance is rejected. -/
def Attendance.markAsAttended (a : Attendance) : Except SvcError Attendance :=
  if a.status = .cancelled then
    .error .cannotAttendCancelled
  else
    .ok { a with status := .attended }

/-- `Attendance.isActive` — `status !== CANCELLED`. -/
def Attendance.isActive (a : Attendance) : Bool :=
  decide (a.status ≠ .cancelled)

/-- The relational store (`init.sql`): the three tables plus the
abstracted id generators. -/
structure DB where
  events : List Event
  participants : List Participant
  attendances : List Attendance
  nextAttendanceId : Nat
  nextEventId : Nat
deriving DecidableEq, Repr

/-- The row-level CHECK constraints of the `events` table:
`capacity > 0`, `available_spots >= 0`, `available_spots <= capacity`. -/
def eventRowOk (e : Event) : Bool :=
  decide (0 < e.capacity) && decide (0 ≤ e.availableSpots) &&
    decide (e.availableSpots ≤ e.capacity)

/-- `UPDATE events SET … WHERE id = $1`: every matched row is rewritten
by `f`; the statement fails (`none`) iff a rewritten row violates a
CHECK constraint.  A vanishing WHERE match is a successful no-op, as in
SQL. -/
def applyEventUpdate (events : List Event) (eid : String)
    (f : Event → Event) : Option (List Event) :=
  if events.all (fun e => !(e.id == eid) || eventRowOk (f e)) then
    some (events.map (fun e => if e.id == eid then f e else e))
  else
    none

/-- `AttendanceRepository.update` via `AttendanceModel.toUpdate`: only
`status` and `registration_date` are written. -/
def updAttRow (db : DB) (aid : Nat) (st : AttendanceStatus) (rd : Int) : DB :=
  { db with
    attendances := db.attendances.map fun a =>
      if a.id == aid then { a with status := st, registrationDate := rd } else a }

/-- `AttendanceRepository.create`: INSERT with a database-generated id. -/
def insertAtt (db : DB) (a : Attendance) : DB :=
  { db with
    attendances := db.attendances ++ [a]
    nextAttendanceId := db.nextAttendanceId + 1 }

def setEvents (db : DB) (es : List Event) : DB :=
  { db with events := es }

/-- `SELECT * FROM events WHERE id = $1 …` (first row). -/
def findEvent (db : DB) (eid : String) : Option Event :=
  db.events.find? (fun e => e.id == eid)

/-- `ParticipantRepository.findById`. -/
def findParticipant (db : DB) (pid : String) : Option Participant :=
  db.participants.find? (fun p => p.id == pid)

/-- `AttendanceRepository.findByEventAndParticipant`. -/
def findAttendancePair (db : DB) (eid pid : String) : Option Attendance :=
  db.attendances.find? (fun a => a.eventId == eid && a.participantId == pid)

/-- `AttendanceRepository.findById`. -/
def findAttendance (db : DB) (aid : Nat) : Option Attendance :=
  db.attendances.find? (fun a => a.id == aid)

/-- The tail of `AttendanceService.registerAttendance`, after the
attendance row has been written through the repository's own
(autocommitted) connection and `db₁` already holds it durably: the
counter decrement `UPDATE events SET available_spots = available_spots - 1`
runs on the transaction client.  If it fails — `failDec` injects the
storage error, and a violated CHECK constraint raises one — the catch
block ROLLBACKs, which can only discard that UPDATE; `db₁` (with the
attendance write) survives. -/
def finishRegister (failDec : Bool) (eid : String) (a : Attendance)
    (db₁ : DB) : Except SvcError Attendance × DB :=
  if failDec then
    (.error .storageError, db₁)
  else
    match applyEventUpdate db₁.events eid
        (fun e => { e with availableSpots := e.availableSpots - 1 }) with
    | some es => (.ok a, setEvents db₁ es)
    | none => (.error .storageError, db₁)

/-- `AttendanceService.registerAttendance` (the revision with the
test-mode lock bypass; sequential semantics, so the `FOR UPDATE`
presence does not alter this function — claim C7 treats the query text
itself).  Steps in source order: locked event SELECT, participant
lookup, capacity check, duplicate check, reuse-or-insert, counter
decrement, commit. -/
def registerAttendance (now : Int) (failDec : Bool) (eid pid : String)
    (db : DB) : Except SvcError Attendance × DB :=
  match findEvent db eid with
  | none => (.error .eventNotFound, db)
  | some ev =>
    match findParticipant db pid with
    | none => (.error .participantNotFound, db)
    | some _ =>
      if ev.availableSpots ≤ 0 then
        (.error .noAvailableSpots, db)
      else
        match findAttendancePair db eid pid with
        | some a =>
          if a.status = .cancelled then
            -- reactivate: status := REGISTERED, registrationDate := new Date()
            finishRegister failDec eid
              { a with status := .registered, registrationDate := now }
              (updAttRow db a.id .registered now)
          else
            (.error .alreadyRegistered, db)
        | none =>
          -- new Attendance(…, REGISTERED, new Date()) inserted via create
          finishRegister failDec eid
            ⟨db.nextAttendanceId, eid, pid, .registered, now⟩
            (insertAtt db ⟨db.nextAttendanceId, eid, pid, .registered, now⟩)

/-- `AttendanceService.cancelAttendance`: load, reject if already
cancelled, `attendance.cancel()` (rejects attended), persist the status
through the repository (autocommit), then increment the counter on the
transaction client (`failInc` injects its storage error; a CHECK
violation also raises one) and commit. -/
def cancelAttendance (failInc : Bool) (aid : Nat) (db : DB) :
    Except SvcError Attendance × DB :=
  match findAttendance db aid with
  | none => (.error .attendanceNotFound, db)
  | some a =>
    if a.status = .cancelled then
      (.error .alreadyCancelled, db)
    else
      match a.cancel with
      | .error e => (.error e, db)
      | .ok a' =>
        if failInc then
          (.error .storageError, updAttRow db aid .cancelled a.registrationDate)
        else
          match applyEventUpdate
              (updAttRow db aid .cancelled a.registrationDate).events a.eventId
              (fun e => { e with availableSpots := e.availableSpots + 1 }) with
          | some es =>
            (.ok a', setEvents (updAttRow db aid .cancelled a.registrationDate) es)
          | none =>
            (.error .storageError, updAttRow db aid .cancelled a.registrationDate)

/-- `AttendanceService.confirmAttendance`: load, `attendance.confirm()`
(rejects only cancelled), persist; no transaction, no seat change. -/
def confirmAttendance (aid : Nat) (db : DB) :
    Except SvcError Attendance × DB :=
  match findAttendance db aid with
  | none => (.error .attendanceNotFound, db)
  | some a =>
    match a.confirm with
    | .error e => (.error e, db)
    | .ok a' => (.ok a', updAttRow db aid .confirmed a.registrationDate)

/-- `AttendanceService.markAsAttended`: load,
`attendance.markAsAttended()` (rejects only cancelled), persist. -/
def markAsAttended (aid : Nat) (db : DB) :
    Except SvcError Attendance × DB :=
  match findAttendance db aid with
  | none => (.error .attendanceNotFound, db)
  | some a =>
    match a.markAsAttended with
    | .error e => (.error e, db)
    | .ok a' => (.ok a', updAttRow db aid .attended a.registrationDate)

/-- The fields of `EventService.createEvent`'s argument. -/
structure CreateEventData where
  name : String
  description : String
  date : Int
  location : String
  capacity : Int
deriving DecidableEq, Repr

/-- `EventService.createEvent`: validates `capacity > 0` and that the
date is not in the past, then inserts with
`availableSpots = capacity` (the INSERT is subject to the CHECK
constraints, vacuously satisfied here).  The generated UUID is
abstracted as a counter-derived fresh identifier. -/
def newEventRow (db : DB) (d : CreateEventData) : Event :=
  ⟨"ev:" ++ toString db.nextEventId, d.name, d.description, d.date,
    d.location, d.capacity, d.capacity⟩

def createEvent (now : Int) (d : CreateEventData) (db : DB) :
    Except SvcError Event × DB :=
  if d.capacity ≤ 0 then
    (.error .invalidCapacity, db)
  else if d.date < now then
    (.error .pastDate, db)
  else if eventRowOk (newEventRow db d) then
    (.ok (newEventRow db d),
      { db with
        events := db.events ++ [newEventRow db d]
        nextEventId := db.nextEventId + 1 })
  else
    (.error .storageError, db)

/-- The partial-update payload of `EventService.updateEvent`
(`Partial<Event>` restricted to the fields `EventModel.toUpdate`
forwards; `availableSpots` is also forwarded, and is overwritten by the
service itself whenever `capacity` is present). -/
structure UpdateEventData where
  name : Option String := none
  description : Option String := none
  date : Option Int := none
  location : Option String := none
  capacity : Option Int := none
  availableSpots : Option Int := none
deriving DecidableEq, Repr

/-- `EventModel.toUpdate` + SQL `SET`: overwrite exactly the present
fields. -/
def applyEventPayload (u : UpdateEventData) (e : Event) : Event :=
  { e with
    name := u.name.getD e.name
    description := u.description.getD e.description
    date := u.date.getD e.date
    location := u.location.getD e.location
    capacity := u.capacity.getD e.capacity
    availableSpots := u.availableSpots.getD e.availableSpots }

/-- The payload after the service re-derives `availableSpots` from the
new capacity and the occupied-seat count. -/
def capacityAdjustedPayload (u : UpdateEventData) (existing : Event)
    (c : Int) : UpdateEventData :=
  { u with
    availableSpots := some (c - (existing.capacity - existing.availableSpots)) }

/-- `EventService.updateEvent`: load; when `capacity` changes, reject a
capacity below the occupied-seat count and re-derive `availableSpots`;
apply the UPDATE (CHECK-guarded, autocommit). -/
def updateEvent (eid : String) (u : UpdateEventData) (db : DB) :
    Except SvcError Event × DB :=
  match findEvent db eid with
  | none => (.error .eventNotFound, db)
  | some existing =>
    match u.capacity with
    | some c =>
      if c < existing.capacity - existing.availableSpots then
        (.error .capacityBelowOccupied, db)
      else
        match applyEventUpdate db.events eid
            (applyEventPayload (capacityAdjustedPayload u existing c)) with
        | some es =>
          (.ok (applyEventPayload (capacityAdjustedPayload u existing c) existing),
            setEvents db es)
        | none => (.error .storageError, db)
    | none =>
      match applyEventUpdate db.events eid (applyEventPayload u) with
      | some es => (.ok (applyEventPayload u existing), setEvents db es)
      | none => (.error .storageError, db)

/-- The event text of `registerAttendance`'s locked SELECT:
`` `SELECT * FROM events WHERE id = $1 ${forUpdate}` `` where
`forUpdate` is `''` when `NODE_ENV === 'test'` and `'FOR UPDATE'`
otherwise. -/
def registerEventQuery (nodeEnvTest : Bool) : String :=
  "SELECT * FROM events WHERE id = $1 " ++
    (if nodeEnvTest then "" else "FOR UPDATE")

/-- `0 ≤ availableSpots ≤ capacity` for one event row. -/
def spotsOkB (e : Event) : Bool :=
  decide (0 ≤ e.availableSpots) && decide (e.availableSpots ≤ e.capacity)

/-- Spec §8 first invariant, per store state. -/
def spotsInvB (db : DB) : Bool :=
  db.events.all spotsOkB

/-- Spec §8 second invariant: for each event, the number of
non-cancelled attendance rows equals `capacity − availableSpots`. -/
def countInvB (db : DB) : Bool :=
  db.events.all fun e =>
    ((db.attendances.filter
        (fun a => a.eventId == e.id && a.isActive)).length : Int)
      == e.capacity - e.availableSpots

/-- Primary-key and fresh-id sanity of the store: event ids and
attendance ids are unique, and every attendance id is below the
generator (what the database's PRIMARY KEY and sequence guarantee). -/
def wfB (db : DB) : Bool :=
  decide (db.events.map Event.id).Nodup &&
  decide (db.attendances.map Attendance.id).Nodup &&
  db.attendances.all (fun a => decide (a.id < db.nextAttendanceId))

/-- The service operations quantified over by the invariant claims,
with the storage-failure injection points of the counter UPDATEs. -/
inductive Op where
  | register (now : Int) (failDec : Bool) (eid pid : String)
  | cancel (failInc : Bool) (aid : Nat)
  | confirm (aid : Nat)
  | markAttended (aid : Nat)
  | create (now : Int) (d : CreateEventData)
  | update (eid : String) (u : UpdateEventData)

/-- The store after one service call (result discarded). -/
def opStep (db : DB) (op : Op) : DB :=
  match op with
  | .register now failDec eid pid => (registerAttendance now failDec eid pid db).2
  | .cancel failInc aid => (cancelAttendance failInc aid db).2
  | .confirm aid => (confirmAttendance aid db).2
  | .markAttended aid => (markAsAttended aid db).2
  | .create now d => (createEvent now d db).2
  | .update eid u => (updateEvent eid u db).2

/-- The store after a sequence of service calls. -/
def opRun (db : DB) (ops : List Op) : DB :=
  ops.foldl opStep db

/-! ## The in-memory cache (`memoryCacheService`, `CacheService`) -/

/-- The value shapes the read-through services store in the cache. -/
inductive CVal where
  | ev (e : Event)
  | evs (l : List Event)
  | atts (l : List Attendance)
deriving DecidableEq, Repr

/-- One `store` entry: `{ value, expiresAt }` under its key. -/
structure CEntry where
  key : String
  value : CVal
  expiresAt : Option Int
deriving DecidableEq, Repr

/-- The `Map`'s entries in insertion order (keys unique by
construction: `set` replaces in place). -/
abbrev Cache := List CEntry

/-- `memoryCacheService.set`: `expiresAt = Date.now() + ttl*1000` when a
ttl is given; `Map.set` replaces an existing key in place, else
appends. -/
def cacheSet (now : Int) (c : Cache) (k : String) (v : CVal)
    (ttl : Option Int) : Cache :=
  let en : CEntry := ⟨k, v, ttl.map (fun t => now + t * 1000)⟩
  if c.any (fun e => e.key == k) then
    c.map (fun e => if e.key == k then en else e)
  else
    c ++ [en]

/-- `memoryCacheService.get`: absent → `null`; expired
(`expiresAt <= Date.now()`) → delete and `null`; else the value. -/
def cacheGet (now : Int) (c : Cache) (k : String) : Option CVal × Cache :=
  match c.find? (fun e => e.key == k) with
  | none => (none, c)
  | some en =>
    match en.expiresAt with
    | some t =>
      if t ≤ now then (none, c.filter (fun e => !(e.key == k)))
      else (some en.value, c)
    | none => (some en.value, c)

/-- `memoryCacheService.delete`: whether the key existed, and the store
without it. -/
def cacheDelete (c : Cache) (k : String) : Bool × Cache :=
  (c.any (fun e => e.key == k), c.filter (fun e => !(e.key == k)))

/-- `Array.from(store.keys())`. -/
def cacheKeysList (c : Cache) : List String :=
  c.map CEntry.key

/-- JS `pattern.split('*')` on a character list. -/
def splitOnStar : List Char → List (List Char)
  | [] => [[]]
  | c :: cs =>
    match splitOnStar cs with
    | [] => [[c]]
    | h :: t => if c = '*' then [] :: h :: t else (c :: h) :: t

/-- Denotation of the anchored regex `^p₀.*p₁.*…pₙ$` built by
`memoryCacheService.keys` from the split parts (each part is
regex-escaped in the source, hence literal): the string decomposes as
the parts in order with arbitrary gaps.  `List.tails` enumerates the
candidate gap ends. -/
def partsMatch : List (List Char) → List Char → Bool
  | [], s => s.isEmpty
  | [p], s => p == s
  | p :: q :: ps, s =>
    p.isPrefixOf s &&
      ((s.drop p.length).tails.any fun t => partsMatch (q :: ps) t)

/-- `memoryCacheService.keys`: no pattern → all keys; else filter by the
escaped-split-join regex. -/
def memoryCacheKeys (c : Cache) (pattern : Option String) : List String :=
  match pattern with
  | none => cacheKeysList c
  | some p =>
    (cacheKeysList c).filter fun k => partsMatch (splitOnStar p.toList) k.toList

/-- Tokens of the regex `CacheService.keys` builds by
`pattern.replace(/\*/g, '.*')` *without escaping*: an original `*`
becomes `.*` (any substring), an original `.` stays a live regex dot
(any one character), every other character is a literal.  (A pattern
containing further regex metacharacters would inject live syntax the
same way; the claims only need `.` to exhibit the non-escaping.) -/
inductive RTok where
  | lit (c : Char)
  | anyChar
  | anySeq
deriving DecidableEq, Repr

def patTokens (p : List Char) : List RTok :=
  p.map fun c => if c = '*' then .anySeq else if c = '.' then .anyChar else .lit c

/-- Anchored matcher for the token list (full-match semantics of the
`^…$` regex). -/
def reMatch : List RTok → List Char → Bool
  | [], s => s.isEmpty
  | .lit c :: ts, s =>
    match s with
    | [] => false
    | x :: s' => x == c && reMatch ts s'
  | .anyChar :: ts, s =>
    match s with
    | [] => false
    | _ :: s' => reMatch ts s'
  | .anySeq :: ts, s => s.tails.any fun t => reMatch ts t

/-- `CacheService.keys` (`src/infrastructure/cache/CacheService.ts`):
no pattern → all keys; else filter by the *unescaped* replace-built
regex. -/
def cacheServiceKeys (c : Cache) (pattern : Option String) : List String :=
  match pattern with
  | none => cacheKeysList c
  | some p =>
    (cacheKeysList c).filter fun k => reMatch (patTokens p.toList) k.toList

/-- The property C8 states, written from the spec's words: with the
pattern split as `pre ++ '*' ++ suf`, a key matches iff it is
`pre ++ anything ++ suf`. -/
def OneWildcardMatch (pre suf k : List Char) : Prop :=
  ∃ mid, k = pre ++ mid ++ suf

/-! ## Read-through services, with and without the cache layer -/

def eventKey (i : String) : String := "event:" ++ i

def attsKey (i : String) : String := "attendances:event:" ++ i

def allEventsKey : String := "events:all"

def availEventsKey : String := "events:available"

/-- `EventRepository.findById` as `getEventById` uses it. -/
def getEventByIdPure (db : DB) (i : String) : Option Event :=
  findEvent db i

/-- `EventRepository.findAll` (order abstracted). -/
def getAllEventsPure (db : DB) : List Event :=
  db.events

/-- `EventRepository.findAvailableEvents`:
`WHERE available_spots > 0 AND date > NOW()`. -/
def getAvailableEventsPure (now : Int) (db : DB) : List Event :=
  db.events.filter fun e => decide (0 < e.availableSpots) && decide (now < e.date)

/-- `AttendanceRepository.findByEventId` (order abstracted). -/
def getAttendancesByEventPure (db : DB) (i : String) : List Attendance :=
  db.attendances.filter fun a => a.eventId == i

/-- `EventService.getEventById` with the cache: cache hit returns the
cached value; miss (or a value of a different shape, which cannot arise
for the keys the services write — see `eventIdsClean` — and which the
untyped source would return unchecked) reads the store and, only when
the event exists, caches it for 300 s. -/
def getEventByIdC (now : Int) (i : String) (db : DB) (c : Cache) :
    Option Event × Cache :=
  match cacheGet now c (eventKey i) with
  | (some (.ev e), c₁) => (some e, c₁)
  | (_, c₁) =>
    match findEvent db i with
    | some e => (some e, cacheSet now c₁ (eventKey i) (.ev e) (some 300))
    | none => (none, c₁)

/-- `EventService.getAllEvents` with the cache (TTL 120 s). -/
def getAllEventsC (now : Int) (db : DB) (c : Cache) :
    List Event × Cache :=
  match cacheGet now c allEventsKey with
  | (some (.evs l), c₁) => (l, c₁)
  | (_, c₁) =>
    (getAllEventsPure db,
      cacheSet now c₁ allEventsKey (.evs (getAllEventsPure db)) (some 120))

/-- `EventService.getAvailableEvents` with the cache (TTL 60 s). -/
def getAvailableEventsC (now : Int) (db : DB) (c : Cache) :
    List Event × Cache :=
  match cacheGet now c availEventsKey with
  | (some (.evs l), c₁) => (l, c₁)
  | (_, c₁) =>
    (getAvailableEventsPure now db,
      cacheSet now c₁ availEventsKey (.evs (getAvailableEventsPure now db))
        (some 60))

/-- `AttendanceService.getAttendancesByEvent` with the cache
(TTL 120 s). -/
def getAttendancesByEventC (now : Int) (i : String) (db : DB) (c : Cache) :
    List Attendance × Cache :=
  match cacheGet now c (attsKey i) with
  | (some (.atts l), c₁) => (l, c₁)
  | (_, c₁) =>
    (getAttendancesByEventPure db i,
      cacheSet now c₁ (attsKey i) (.atts (getAttendancesByEventPure db i))
        (some 120))

/-- The four keys `registerAttendance` / `cancelAttendance` delete
after COMMIT (fire-and-forget; on the in-memory cache the deletes
always execute). -/
def registerInvalidationKeys (eid : String) : List String :=
  [eventKey eid, availEventsKey, allEventsKey, attsKey eid]

/-- The single key `confirmAttendance` / `markAsAttended` delete. -/
def attInvalidationKeys (eid : String) : List String :=
  [attsKey eid]

def cacheDeleteKeys (c : Cache) (ks : List String) : Cache :=
  ks.foldl (fun c k => (cacheDelete c k).2) c

/-- The operations of the cache-transparency comparison: the four
cited read operations plus the attendance mutations that invalidate
their keys (failure injection off: a mid-transaction storage failure
breaks transparency through the non-transactional attendance write —
see the C2 development). -/
inductive SOp where
  | register (eid pid : String)
  | cancel (aid : Nat)
  | confirm (aid : Nat)
  | markAttended (aid : Nat)
  | getEvent (i : String)
  | getAllEvents
  | getAvailableEvents
  | getAtts (i : String)

/-- Result of one read operation. -/
inductive Out where
  | oEvent (r : Option Event)
  | oEvents (l : List Event)
  | oAtts (l : List Attendance)
deriving DecidableEq, Repr

/-- The store transition of one operation — mutations never consult the
cache, so it is shared verbatim by the cached and cache-free runs. -/
def sopDB (now : Int) (op : SOp) (db : DB) : DB :=
  match op with
  | .register e p => (registerAttendance now false e p db).2
  | .cancel a => (cancelAttendance false a db).2
  | .confirm a => (confirmAttendance a db).2
  | .markAttended a => (markAsAttended a db).2
  | _ => db

/-- The cache invalidation a mutation performs (only after a successful
commit; every error path throws before the deletes). -/
def sopCacheInval (now : Int) (op : SOp) (db : DB) (c : Cache) : Cache :=
  match op with
  | .register e p =>
    match (registerAttendance now false e p db).1 with
    | .ok _ => cacheDeleteKeys c (registerInvalidationKeys e)
    | .error _ => c
  | .cancel a =>
    match (cancelAttendance false a db).1 with
    | .ok att => cacheDeleteKeys c (registerInvalidationKeys att.eventId)
    | .error _ => c
  | .confirm a =>
    match (confirmAttendance a db).1 with
    | .ok att => cacheDeleteKeys c (attInvalidationKeys att.eventId)
    | .error _ => c
  | .markAttended a =>
    match (markAsAttended a db).1 with
    | .ok att => cacheDeleteKeys c (attInvalidationKeys att.eventId)
    | .error _ => c
  | _ => c

/-- Run with the cache layer: reads go through the read-through
wrappers, mutations apply their invalidations. -/
def runCached (now : Int) : List SOp → DB → Cache → List Out × DB × Cache
  | [], db, c => ([], db, c)
  | .getEvent i :: ops, db, c =>
    let (r, c₁) := getEventByIdC now i db c
    let (outs, s) := runCached now ops db c₁
    (.oEvent r :: outs, s)
  | .getAllEvents :: ops, db, c =>
    let (r, c₁) := getAllEventsC now db c
    let (outs, s) := runCached now ops db c₁
    (.oEvents r :: outs, s)
  | .getAvailableEvents :: ops, db, c =>
    let (r, c₁) := getAvailableEventsC now db c
    let (outs, s) := runCached now ops db c₁
    (.oEvents r :: outs, s)
  | .getAtts i :: ops, db, c =>
    let (r, c₁) := getAttendancesByEventC now i db c
    let (outs, s) := runCached now ops db c₁
    (.oAtts r :: outs, s)
  | op :: ops, db, c =>
    runCached now ops (sopDB now op db) (sopCacheInval now op db c)

/-- Run with the cache layer disabled (every read misses, every write
dropped): reads go straight to the store. -/
def runPure (now : Int) : List SOp → DB → List Out × DB
  | [], db => ([], db)
  | .getEvent i :: ops, db =>
    let (outs, s) := runPure now ops db
    (.oEvent (getEventByIdPure db i) :: outs, s)
  | .getAllEvents :: ops, db =>
    let (outs, s) := runPure now ops db
    (.oEvents (getAllEventsPure db) :: outs, s)
  | .getAvailableEvents :: ops, db =>
    let (outs, s) := runPure now ops db
    (.oEvents (getAvailableEventsPure now db) :: outs, s)
  | .getAtts i :: ops, db =>
    let (outs, s) := runPure now ops db
    (.oAtts (getAttendancesByEventPure db i) :: outs, s)
  | op :: ops, db =>
    runPure now ops (sopDB now op db)

/-- Event ids never contain `':'` (database UUIDs are hex-and-hyphen),
so the four cache-key families are pairwise disjoint on the reachable
key set. -/
def eventIdsClean (db : DB) : Bool :=
  db.events.all fun e => e.id.toList.all fun ch => !(ch == ':')

/-- Coherence of one cache entry with the store: it is one of the four
key families and holds exactly what the cache-free read would return
now. -/
def EntryCoh (now : Int) (db : DB) (en : CEntry) : Prop :=
  (∃ i e, en.key = eventKey i ∧ en.value = .ev e ∧ findEvent db i = some e) ∨
  (en.key = allEventsKey ∧ en.value = .evs (getAllEventsPure db)) ∨
  (en.key = availEventsKey ∧ en.value = .evs (getAvailableEventsPure now db)) ∨
  (∃ i, en.key = attsKey i ∧ en.value = .atts (getAttendancesByEventPure db i))

/-- Coherence of the whole cache. -/
def Coh (now : Int) (db : DB) (c : Cache) : Prop :=
  ∀ en ∈ c, EntryCoh now db en

/-! ## Concrete stores used by the per-claim evaluations -/

/-- One event (capacity 2, both seats free), one participant, no
attendance rows. -/
def dbC2 : DB :=
  ⟨[⟨"e1", "Taller", "Intro", 100, "Sala A", 2, 2⟩],
    [⟨"p1", "Ana", "ana@mail.com", "3001234567"⟩], [], 1, 0⟩

/-- One event (capacity 3, all seats free), one participant. -/
def dbC5 : DB :=
  ⟨[⟨"e5", "Curso", "Avanzado", 200, "Sala B", 3, 3⟩],
    [⟨"p5", "Luis", "luis@mail.com", "3017654321"⟩], [], 10, 0⟩

/-- One event with a single seat, one participant. -/
def dbC3 : DB :=
  ⟨[⟨"e3", "Charla", "Corta", 50, "Aula 1", 1, 1⟩],
    [⟨"p3", "Mia", "mia@mail.com", "3110000000"⟩], [], 1, 0⟩

/-- One event with a single seat, one participant. -/
def dbC4 : DB :=
  ⟨[⟨"e4", "Foro", "Anual", 60, "Aula 2", 1, 1⟩],
    [⟨"p4", "Leo", "leo@mail.com", "3120000000"⟩], [], 1, 0⟩

/-- A single attendance already marked `attended`. -/
def dbC6 : DB :=
  ⟨[], [], [⟨7, "e6", "p6", .attended, 3⟩], 8, 0⟩

/-- A single attendance in state `registered`. -/
def dbC6w : DB :=
  ⟨[], [], [⟨2, "e6w", "p6w", .registered, 4⟩], 3, 0⟩

/-- The store after the C3 witness's first registration. -/
def c3regdb : DB := (registerAttendance 1 false "e3" "p3" dbC3).2

def c4db₁ : DB := (registerAttendance 3 false "e4" "p4" dbC4).2

def c4db₂ : DB := (cancelAttendance false 1 c4db₁).2

def c4db₃ : DB := (registerAttendance 9 false "e4" "p4" c4db₂).2

/-- One event (capacity 2), one participant, used by the C1 witness. -/
def dbC1 : DB :=
  ⟨[⟨"e0", "Expo", "Demo", 80, "Patio", 2, 2⟩],
    [⟨"p0", "Eva", "eva@mail.com", "3200000000"⟩], [], 1, 0⟩

/-- A cache whose single key exercises the unescaped `.` of
`CacheService.keys`. -/
def c8store : Cache := [⟨"axb", .evs [], none⟩]

/-- A cache with one matching and one non-matching key for the C8
witness. -/
def c8wstore : Cache :=
  [⟨"event:1", .evs [], none⟩, ⟨"evil", .evs [], none⟩]

/-- The store-side invariants the cache-transparency run relies on:
primary keys and fresh ids (`wfB`), the seat-count bounds (`spotsInvB`),
the seats/rows accounting (`countInvB`), and colon-free event ids
(database UUIDs; keeps the four cache-key families disjoint). -/
def goodB (db : DB) : Bool :=
  wfB db && spotsInvB db && countInvB db && eventIdsClean db

/-- One future event with a single free seat (its date, 5, lies between
the two instants of the staleness counterexample). -/
def dbC9 : DB :=
  ⟨[⟨"e9", "Gala", "Anual", 5, "Teatro", 1, 1⟩], [], [], 1, 0⟩

/-- One event with both seats free and one participant, for the C9
witness run. -/
def dbC9w : DB :=
  ⟨[⟨"e9w", "Cine", "Foro", 50, "Sala C", 2, 2⟩],
    [⟨"p9w", "Rey", "rey@mail.com", "3130000000"⟩], [], 1, 0⟩

/-- The mixed read/mutation run of the C9 witness. -/
def opsC9w : List SOp :=
  [.getEvent "e9w", .getAvailableEvents, .register "e9w" "p9w",
    .getEvent "e9w", .getAtts "e9w", .confirm 1, .getAtts "e9w",
    .cancel 1, .getAllEvents, .getAvailableEvents, .getEvent "missing"]

/-! ## C10 — `Event.increaseSpots` is total and never overshoots -/

/-- C10: `increaseSpots` adds `amount` when the sum stays within
`capacity`, is a silent no-op otherwise (no error raised), and from any
in-bounds state never pushes `availableSpots` above `capacity`. -/
theorem increaseSpots_total_no_overshoot (e : Event) (amount : Int) :
    (e.availableSpots + amount ≤ e.capacity →
      (e.increaseSpots amount).availableSpots = e.availableSpots + amount) ∧
    (¬ e.availableSpots + amount ≤ e.capacity →
      e.increaseSpots amount = e) ∧
    (e.availableSpots ≤ e.capacity →
      (e.increaseSpots amount).availableSpots ≤ e.capacity) := by
  unfold Event.increaseSpots
  by_cases h : e.availableSpots + amount ≤ e.capacity
  · rw [if_pos h]
    exact ⟨fun _ => rfl, fun hc => absurd h hc, fun _ => h⟩
  · rw [if_neg h]
    exact ⟨fun hc => absurd hc h, fun _ => rfl, fun hb => hb⟩

/-- Witness for C10 at a concrete event (capacity 10, 4 spots free):
both branches and the bound. -/
theorem increaseSpots_total_no_overshoot_witness :
    (Event.mk "ew" "W" "D" 0 "L" 10 4 |>.increaseSpots 3).availableSpots =
        (4 : Int) + 3 ∧
    (Event.mk "ew" "W" "D" 0 "L" 10 4 |>.increaseSpots 99) =
        Event.mk "ew" "W" "D" 0 "L" 10 4 ∧
    (Event.mk "ew" "W" "D" 0 "L" 10 4 |>.increaseSpots 3).availableSpots ≤
        (10 : Int) :=
  ⟨(increaseSpots_total_no_overshoot (Event.mk "ew" "W" "D" 0 "L" 10 4) 3).1
      (by decide),
    (increaseSpots_total_no_overshoot (Event.mk "ew" "W" "D" 0 "L" 10 4) 99).2.1
      (by decide),
    (increaseSpots_total_no_overshoot (Event.mk "ew" "W" "D" 0 "L" 10 4) 3).2.2
      (by decide)⟩

/-! ## C7 — the locked SELECT, and its test-mode bypass -/

/-- C7 (code bug): in production mode the event SELECT of
`registerAttendance` carries `FOR UPDATE`, but under
`NODE_ENV === 'test'` the same code path issues the SELECT with no lock
at all, so the capacity check reads an unlocked row there. -/
theorem registerQuery_locks_only_in_production :
    ("FOR UPDATE".toList <:+: (registerEventQuery false).toList) ∧
    ¬ ("FOR UPDATE".toList <:+: (registerEventQuery true).toList) := by
  decide

/-! ## C2 — the rollback does not undo the attendance write -/

/-- C2 (code bug): a storage error at the counter decrement surfaces to
the caller and the ROLLBACK restores the event row, but the attendance
row inserted through the repository's own autocommitted connection
survives as an orphan: the transaction's effects are *not* fully
undone. -/
theorem register_rollback_leaves_orphan_attendance :
    (registerAttendance 5 true "e1" "p1" dbC2).1 = .error .storageError ∧
    (registerAttendance 5 true "e1" "p1" dbC2).2.attendances =
      [⟨1, "e1", "p1", .registered, 5⟩] ∧
    (registerAttendance 5 true "e1" "p1" dbC2).2.events = dbC2.events := by
  decide

/-! ## C5 — the active-rows/available-spots accounting -/

/-- C5 (code bug): the claimed invariant
`#{status ≠ cancelled} = capacity − availableSpots` holds before but
not after a `registerAttendance` call whose counter decrement fails:
the non-transactional attendance insert survives the rollback, leaving
one active row against an undecremented counter. -/
theorem countInv_broken_by_failed_decrement :
    countInvB dbC5 = true ∧
    (registerAttendance 7 true "e5" "p5" dbC5).1 = .error .storageError ∧
    countInvB (registerAttendance 7 true "e5" "p5" dbC5).2 = false := by
  decide

/-! ## C6 — what `confirmAttendance` actually accepts -/

/-- C6 (counterexample to the claim as stated): confirming an
attendance whose status is `attended` does not fail — it succeeds and
rewrites the status back to `confirmed`. -/
theorem confirm_from_attended_succeeds :
    (confirmAttendance 7 dbC6).1 = .ok ⟨7, "e6", "p6", .confirmed, 3⟩ ∧
    (confirmAttendance 7 dbC6).2.attendances =
      [⟨7, "e6", "p6", .confirmed, 3⟩] := by
  decide

/-- C6 (amended): `confirmAttendance` fails (with the store untouched)
exactly when the current status is `cancelled`; from `registered`,
`confirmed` or `attended` it succeeds and persists status
`confirmed`. -/
theorem confirmAttendance_spec (db : DB) (aid : Nat) (a : Attendance)
    (h : findAttendance db aid = some a) :
    (a.status = .cancelled →
      confirmAttendance aid db = (.error .cannotConfirmCancelled, db)) ∧
    (a.status ≠ .cancelled →
      confirmAttendance aid db =
        (.ok { a with status := .confirmed },
          updAttRow db aid .confirmed a.registrationDate)) := by
  constructor <;> intro hc <;>
    simp [confirmAttendance, Attendance.confirm, h, hc]

/-- Witness for C6 at a concrete `registered` attendance. -/
theorem confirmAttendance_spec_witness :
    confirmAttendance 2 dbC6w =
      (.ok ⟨2, "e6w", "p6w", .confirmed, 4⟩,
        updAttRow dbC6w 2 .confirmed 4) :=
  (confirmAttendance_spec dbC6w 2 ⟨2, "e6w", "p6w", .registered, 4⟩
      (by decide)).2 (by decide)

/-! ## C3 — duplicate registration, counterexample -/

/-- C3 (counterexample to the claim as stated): on a capacity-1 event
the second `registerAttendance` for the same pair fails with
`noAvailableSpots` — the capacity check precedes the duplicate check —
not with `alreadyRegistered`. -/
theorem second_register_last_seat_fails_with_noSpots :
    (registerAttendance 1 false "e3" "p3" dbC3).1 =
      .ok ⟨1, "e3", "p3", .registered, 1⟩ ∧
    (registerAttendance 2 false "e3" "p3"
        (registerAttendance 1 false "e3" "p3" dbC3).2).1 =
      .error .noAvailableSpots ∧
    SvcError.noAvailableSpots ≠ SvcError.alreadyRegistered := by
  decide

/-! ## C4 — register / cancel / register, counterexample -/

/-- C4 (counterexample to the claim as stated): the whole
register–cancel–register cycle succeeds and reuses the row, but the
final `availableSpots` is one *less* than before the cycle (1 before,
0 after): the net effect of the three calls is one consumed seat. -/
theorem register_cancel_register_net_decrement :
    (registerAttendance 3 false "e4" "p4" dbC4).1 =
      .ok ⟨1, "e4", "p4", .registered, 3⟩ ∧
    (cancelAttendance false 1 c4db₁).1 =
      .ok ⟨1, "e4", "p4", .cancelled, 3⟩ ∧
    (registerAttendance 9 false "e4" "p4" c4db₂).1 =
      .ok ⟨1, "e4", "p4", .registered, 9⟩ ∧
    findEvent dbC4 "e4" = some ⟨"e4", "Foro", "Anual", 60, "Aula 2", 1, 1⟩ ∧
    findEvent c4db₃ "e4" = some ⟨"e4", "Foro", "Anual", 60, "Aula 2", 1, 0⟩ ∧
    (0 : Int) ≠ 1 := by
  decide

/-! ## C1 — the `0 ≤ availableSpots ≤ capacity` invariant -/

theorem spotsOk_of_eventRowOk {e : Event} (h : eventRowOk e = true) :
    spotsOkB e = true := by
  simp only [eventRowOk, Bool.and_eq_true, decide_eq_true_eq] at h
  simp only [spotsOkB, Bool.and_eq_true, decide_eq_true_eq]
  exact ⟨h.1.2, h.2⟩

/-- A CHECK-guarded events UPDATE preserves the per-row spot bounds. -/
theorem spotsInv_applyEventUpdate {es es' : List Event} {eid : String}
    {f : Event → Event} (h : applyEventUpdate es eid f = some es')
    (hs : es.all spotsOkB = true) : es'.all spotsOkB = true := by
  unfold applyEventUpdate at h
  by_cases hc : es.all (fun e => !(e.id == eid) || eventRowOk (f e)) = true
  · rw [if_pos hc] at h
    have h' := Option.some.inj h
    subst h'
    rw [List.all_eq_true] at hs hc ⊢
    intro x hx
    rcases List.mem_map.1 hx with ⟨e, he, rfl⟩
    by_cases hid : (e.id == eid) = true
    · have hok := hc e he
      rw [hid] at hok
      simp only [Bool.not_true, Bool.false_or] at hok
      rw [if_pos hid]
      exact spotsOk_of_eventRowOk hok
    · rw [if_neg hid]
      exact hs e he
  · rw [if_neg hc] at h
    cases h

theorem spotsInv_finishRegister {failDec : Bool} {eid : String}
    {a : Attendance} {db₁ : DB} (hs : spotsInvB db₁ = true) :
    spotsInvB (finishRegister failDec eid a db₁).2 = true := by
  unfold finishRegister
  split
  · simpa using hs
  · split
    next es hu => simpa [spotsInvB, setEvents] using spotsInv_applyEventUpdate hu hs
    next hu => simpa using hs

theorem spotsInv_register (now : Int) (failDec : Bool) (eid pid : String)
    (db : DB) (hs : spotsInvB db = true) :
    spotsInvB (registerAttendance now failDec eid pid db).2 = true := by
  unfold registerAttendance
  split
  · simpa using hs
  · split
    · simpa using hs
    · split
      · simpa using hs
      · split
        · split
          · exact spotsInv_finishRegister hs
          · simpa using hs
        · exact spotsInv_finishRegister hs

theorem spotsInv_cancel (failInc : Bool) (aid : Nat) (db : DB)
    (hs : spotsInvB db = true) :
    spotsInvB (cancelAttendance failInc aid db).2 = true := by
  unfold cancelAttendance
  split
  · simpa using hs
  · split
    · simpa using hs
    · split
      · simpa using hs
      · split
        · simpa using hs
        · split
          next es hu =>
            simpa [spotsInvB, setEvents] using spotsInv_applyEventUpdate hu hs
          next hu => simpa using hs

theorem spotsInv_confirm (aid : Nat) (db : DB) (hs : spotsInvB db = true) :
    spotsInvB (confirmAttendance aid db).2 = true := by
  unfold confirmAttendance
  split
  · simpa using hs
  · split
    · simpa using hs
    · simpa [spotsInvB, updAttRow] using hs

theorem spotsInv_markAsAttended (aid : Nat) (db : DB)
    (hs : spotsInvB db = true) :
    spotsInvB (markAsAttended aid db).2 = true := by
  unfold markAsAttended
  split
  · simpa using hs
  · split
    · simpa using hs
    · simpa [spotsInvB, updAttRow] using hs

theorem spotsInv_createEvent (now : Int) (d : CreateEventData) (db : DB)
    (hs : spotsInvB db = true) :
    spotsInvB (createEvent now d db).2 = true := by
  unfold createEvent
  split
  · simpa using hs
  · split
    · simpa using hs
    · split
      next hok =>
        simp only [spotsInvB, List.all_append, List.all_cons, List.all_nil,
          Bool.and_eq_true, Bool.and_true]
        exact ⟨by simpa [spotsInvB] using hs, spotsOk_of_eventRowOk hok⟩
      next hok => simpa using hs

theorem spotsInv_updateEvent (eid : String) (u : UpdateEventData) (db : DB)
    (hs : spotsInvB db = true) :
    spotsInvB (updateEvent eid u db).2 = true := by
  unfold updateEvent
  split
  · simpa using hs
  · split
    · split
      · simpa using hs
      · split
        next es hu =>
          simpa [spotsInvB, setEvents] using spotsInv_applyEventUpdate hu hs
        next hu => simpa using hs
    · split
      next es hu =>
        simpa [spotsInvB, setEvents] using spotsInv_applyEventUpdate hu hs
      next hu => simpa using hs

theorem spotsInv_opStep (db : DB) (op : Op) (hs : spotsInvB db = true) :
    spotsInvB (opStep db op) = true := by
  cases op with
  | register now failDec eid pid => exact spotsInv_register now failDec eid pid db hs
  | cancel failInc aid => exact spotsInv_cancel failInc aid db hs
  | confirm aid => exact spotsInv_confirm aid db hs
  | markAttended aid => exact spotsInv_markAsAttended aid db hs
  | create now d => exact spotsInv_createEvent now d db hs
  | update eid u => exact spotsInv_updateEvent eid u db hs

/-- C1: along every sequence of service operations — registrations and
cancellations with or without injected counter-UPDATE failures,
confirmations, attendance marking, event creation and event update —
every event row keeps `0 ≤ availableSpots ≤ capacity`. -/
theorem spots_bounds_invariant (db : DB) (ops : List Op)
    (hs : spotsInvB db = true) : spotsInvB (opRun db ops) = true := by
  induction ops generalizing db with
  | nil => exact hs
  | cons op ops ih => exact ih (opStep db op) (spotsInv_opStep db op hs)

/-- Witness for C1: a register / cancel / failed-register run from a
concrete in-bounds store stays in bounds. -/
theorem spots_bounds_invariant_witness :
    spotsInvB dbC1 = true ∧
    spotsInvB (opRun dbC1
      [.register 1 false "e0" "p0", .cancel false 1,
        .register 2 true "e0" "p0"]) = true :=
  ⟨by decide, spots_bounds_invariant dbC1 _ (by decide)⟩

/-! ## Generic list facts used by the registration round-trip claims -/

theorem find?_map_comm {α : Type} (g : α → α) (p : α → Bool)
    (hpg : ∀ x, p (g x) = p x) (l : List α) :
    (l.map g).find? p = (l.find? p).map g := by
  induction l with
  | nil => rfl
  | cons x xs ih =>
    cases hp : p x with
    | false =>
      rw [List.map_cons, List.find?_cons_of_neg _ (by simp [hpg, hp]),
        List.find?_cons_of_neg _ (by simp [hp]), ih]
    | true =>
      rw [List.map_cons, List.find?_cons_of_pos _ (by rw [hpg]; exact hp),
        List.find?_cons_of_pos _ hp]
      rfl

theorem find?_append_none {α : Type} {p : α → Bool} {l₁ : List α}
    (l₂ : List α) (h : l₁.find? p = none) :
    (l₁ ++ l₂).find? p = l₂.find? p := by
  rw [List.find?_append, h]
  rfl

/-- Under unique keys, looking a member up by its own key finds it. -/
theorem find?_key_of_mem_nodup {α β : Type} [BEq β] [LawfulBEq β]
    (idOf : α → β) {l : List α} (hnd : (l.map idOf).Nodup) {a : α}
    (ha : a ∈ l) : l.find? (fun x => idOf x == idOf a) = some a := by
  induction l with
  | nil => cases ha
  | cons x xs ih =>
    rw [List.map_cons] at hnd
    have hnd' := List.nodup_cons.1 hnd
    rcases List.mem_cons.1 ha with rfl | hmem
    · exact List.find?_cons_of_pos _ (beq_self_eq_true _)
    · have hx : ¬(idOf x == idOf a) = true := by
        simp only [beq_iff_eq]
        intro he
        exact hnd'.1 (by rw [he]; exact List.mem_map_of_mem idOf hmem)
      exact (List.find?_cons_of_neg xs hx).trans (ih hnd'.2 hmem)

/-- Rewriting the first `q`-match in place (keyed by its unique id)
leaves it the first `q`-match. -/
theorem find?_map_update {α β : Type} [BEq β] [LawfulBEq β]
    (idOf : α → β) (q : α → Bool) (f : α → α) {l : List α} {a : α}
    (hfind : l.find? q = some a) (hnd : (l.map idOf).Nodup)
    (hq : q (f a) = true) :
    (l.map fun x => if idOf x == idOf a then f x else x).find? q =
      some (f a) := by
  induction l with
  | nil => cases hfind
  | cons x xs ih =>
    rw [List.map_cons] at hnd
    have hnd' := List.nodup_cons.1 hnd
    cases hpx : q x with
    | false =>
      rw [List.find?_cons_of_neg _ (by simp [hpx])] at hfind
      have hmem : a ∈ xs := List.mem_of_find?_eq_some hfind
      have hxa : ¬(idOf x == idOf a) = true := by
        simp only [beq_iff_eq]
        intro he
        exact hnd'.1 (by rw [he]; exact List.mem_map_of_mem idOf hmem)
      rw [List.map_cons, if_neg hxa, List.find?_cons_of_neg _ (by simp [hpx])]
      exact ih hfind hnd'.2
    | true =>
      rw [List.find?_cons_of_pos _ hpx] at hfind
      obtain rfl := Option.some.inj hfind
      rw [List.map_cons, if_pos (beq_self_eq_true _)]
      exact List.find?_cons_of_pos _ hq

/-- Under unique keys, every key-match coincides with the found one. -/
theorem all_match_eq_of_nodup {α β : Type} [BEq β] [LawfulBEq β]
    (idOf : α → β) {l : List α} {k : β} {ev : α}
    (hnd : (l.map idOf).Nodup)
    (hfind : l.find? (fun x => idOf x == k) = some ev) :
    ∀ e ∈ l, (idOf e == k) = true → e = ev := by
  induction l with
  | nil => intro e he; cases he
  | cons x xs ih =>
    rw [List.map_cons] at hnd
    have hnd' := List.nodup_cons.1 hnd
    intro e he hek
    rcases List.mem_cons.1 he with rfl | hmem
    · have h2 : List.find? (fun y => idOf y == k) (e :: xs) = some e :=
        List.find?_cons_of_pos xs hek
      exact Option.some.inj (h2.symm.trans hfind)
    · cases hpx : (idOf x == k) with
      | false =>
        have h2 : List.find? (fun y => idOf y == k) (x :: xs) =
            List.find? (fun y => idOf y == k) xs :=
          List.find?_cons_of_neg xs (by simp [hpx])
        exact ih hnd'.2 (h2.symm.trans hfind) e hmem hek
      | true =>
        exfalso
        have hxe : idOf x = idOf e := by
          rw [beq_iff_eq] at hpx hek
          rw [hpx, hek]
        exact hnd'.1 (by rw [hxe]; exact List.mem_map_of_mem idOf hmem)

theorem applyEventUpdate_some_eq {es es' : List Event} {eid : String}
    {f : Event → Event} (h : applyEventUpdate es eid f = some es') :
    es' = es.map fun e => if e.id == eid then f e else e := by
  unfold applyEventUpdate at h
  split at h
  · exact (Option.some.inj h).symm
  · cases h

theorem applyEventUpdate_eq_some {es : List Event} {eid : String}
    {f : Event → Event}
    (h : ∀ e ∈ es, (e.id == eid) = true → eventRowOk (f e) = true) :
    applyEventUpdate es eid f =
      some (es.map fun e => if e.id == eid then f e else e) := by
  unfold applyEventUpdate
  rw [if_pos]
  rw [List.all_eq_true]
  intro e he
  cases hc : (e.id == eid) with
  | false => simp [hc]
  | true => simp [hc, h e he hc]

theorem eventsIds_applyEventUpdate {es es' : List Event} {eid : String}
    {f : Event → Event} (h : applyEventUpdate es eid f = some es')
    (hid : ∀ e, (f e).id = e.id) :
    es'.map Event.id = es.map Event.id := by
  rw [applyEventUpdate_some_eq h, List.map_map]
  apply List.map_congr_left
  intro x _
  by_cases hx : (x.id == eid) = true <;> simp [Function.comp, hx, hid]

/-! ## Well-formedness is preserved by the attendance writes -/

theorem wf_updAttRow {db : DB} (aid : Nat) (st : AttendanceStatus) (rd : Int)
    (hwf : wfB db = true) : wfB (updAttRow db aid st rd) = true := by
  simp only [wfB, Bool.and_eq_true, decide_eq_true_eq, List.all_eq_true]
    at hwf ⊢
  obtain ⟨⟨h1, h2⟩, h3⟩ := hwf
  refine ⟨⟨h1, ?_⟩, ?_⟩
  · have hmap : ((updAttRow db aid st rd).attendances.map Attendance.id) =
        db.attendances.map Attendance.id := by
      show ((db.attendances.map _).map Attendance.id) = _
      rw [List.map_map]
      apply List.map_congr_left
      intro x _
      by_cases hx : x.id = aid <;> simp [hx]
    rw [hmap]
    exact h2
  · intro a ha
    rcases List.mem_map.1 ha with ⟨x, hx, rfl⟩
    by_cases hxa : (x.id == aid) = true
    · simpa [hxa] using h3 x hx
    · simpa [hxa] using h3 x hx

theorem wf_insertAtt {db : DB} (eid pid : String) (st : AttendanceStatus)
    (rd : Int) (hwf : wfB db = true) :
    wfB (insertAtt db ⟨db.nextAttendanceId, eid, pid, st, rd⟩) = true := by
  simp only [wfB, Bool.and_eq_true, decide_eq_true_eq, List.all_eq_true]
    at hwf ⊢
  obtain ⟨⟨h1, h2⟩, h3⟩ := hwf
  refine ⟨⟨h1, ?_⟩, ?_⟩
  · show ((db.attendances ++ [_]).map Attendance.id).Nodup
    rw [List.map_append, List.nodup_append]
    refine ⟨h2, List.nodup_singleton _, ?_⟩
    intro k hk hk'
    rcases List.mem_map.1 hk with ⟨x, hx, rfl⟩
    rcases List.mem_singleton.1 hk' with h
    exact absurd (h ▸ h3 x hx) (lt_irrefl _)
  · intro a ha
    rcases List.mem_append.1 ha with hmem | hmem
    · exact Nat.lt_succ_of_lt (h3 a hmem)
    · rcases List.mem_singleton.1 hmem with rfl
      exact Nat.lt_succ_self _

theorem wf_setEvents {db : DB} {es : List Event}
    (hids : es.map Event.id = db.events.map Event.id)
    (hwf : wfB db = true) : wfB (setEvents db es) = true := by
  simp only [wfB, Bool.and_eq_true, decide_eq_true_eq, List.all_eq_true]
    at hwf ⊢
  obtain ⟨⟨h1, h2⟩, h3⟩ := hwf
  refine ⟨⟨?_, h2⟩, h3⟩
  show (es.map Event.id).Nodup
  rw [hids]
  exact h1

theorem attsNodup_of_wf {db : DB} (h : wfB db = true) :
    (db.attendances.map Attendance.id).Nodup := by
  simp only [wfB, Bool.and_eq_true, decide_eq_true_eq] at h
  exact h.1.2

/-- What a successful `registerAttendance` (no injected failure)
guarantees: the event existed with a free seat, its counter is now one
lower, the returned attendance is the (fresh or reactivated) registered
row for the pair, and it is found again both by pair and by id. -/
theorem register_ok_spec {db db₁ : DB} {now₁ : Int} {eid pid : String}
    {a : Attendance} (hwf : wfB db = true)
    (h₁ : registerAttendance now₁ false eid pid db = (.ok a, db₁)) :
    ∃ ev, findEvent db eid = some ev ∧ 0 < ev.availableSpots ∧
      (∃ prt, findParticipant db pid = some prt) ∧
      findEvent db₁ eid =
        some { ev with availableSpots := ev.availableSpots - 1 } ∧
      db₁.participants = db.participants ∧
      a.eventId = eid ∧ a.participantId = pid ∧
      a.status = .registered ∧ a.registrationDate = now₁ ∧
      findAttendancePair db₁ eid pid = some a ∧
      findAttendance db₁ a.id = some a ∧
      wfB db₁ = true := by
  unfold registerAttendance at h₁
  split at h₁
  · simp at h₁
  next ev hev =>
    split at h₁
    · simp at h₁
    next prt hprt =>
      split at h₁
      · simp at h₁
      next hsp =>
        have hspev : 0 < ev.availableSpots := not_le.1 hsp
        have hev' : db.events.find? (fun e => e.id == eid) = some ev := hev
        have hevid0 := List.find?_some hev'
        have hevid : (ev.id == eid) = true := hevid0
        have hevide : ev.id = eid := beq_iff_eq.mp hevid
        split at h₁
        next a₀ hpa =>
          split at h₁
          next hcst =>
            -- reuse of the cancelled row
            unfold finishRegister at h₁
            rw [if_neg Bool.false_ne_true] at h₁
            split at h₁
            next es hes =>
              simp only [Prod.mk.injEq, Except.ok.injEq] at h₁
              obtain ⟨ha, hdb⟩ := h₁
              subst hdb
              subst ha
              have hpa' : db.attendances.find?
                  (fun x => x.eventId == eid && x.participantId == pid) =
                  some a₀ := hpa
              have hqa0 := List.find?_some hpa'
              have hqa₀ : (a₀.eventId == eid && a₀.participantId == pid) =
                  true := hqa0
              have hqe : (a₀.eventId == eid) = true := by
                simp only [Bool.and_eq_true] at hqa₀; exact hqa₀.1
              have hqp : (a₀.participantId == pid) = true := by
                simp only [Bool.and_eq_true] at hqa₀; exact hqa₀.2
              have hwfA := wf_updAttRow a₀.id .registered now₁ hwf
              have hwf₁ := wf_setEvents
                (eventsIds_applyEventUpdate hes (fun _ => rfl)) hwfA
              have hfe : findEvent
                  (setEvents (updAttRow db a₀.id .registered now₁) es) eid =
                  some { ev with availableSpots := ev.availableSpots - 1 } := by
                show es.find? (fun e => e.id == eid) = _
                rw [applyEventUpdate_some_eq hes]
                rw [find?_map_comm _ (fun e : Event => e.id == eid)
                  (by intro x; by_cases hx : x.id = eid <;> simp [hx])]
                rw [show (updAttRow db a₀.id .registered now₁).events.find?
                    (fun e => e.id == eid) = some ev from hev]
                simp [hevide]
              have hpair : findAttendancePair
                  (setEvents (updAttRow db a₀.id .registered now₁) es) eid pid =
                  some { a₀ with status := .registered, registrationDate := now₁ } := by
                show (db.attendances.map _).find? _ = _
                exact find?_map_update Attendance.id _
                  (fun x => { x with status := .registered, registrationDate := now₁ })
                  hpa' (attsNodup_of_wf hwf) hqa₀
              have hmemA : ({ a₀ with status := .registered, registrationDate := now₁ } : Attendance) ∈
                  (setEvents (updAttRow db a₀.id .registered now₁)
                    es).attendances := by
                show _ ∈ db.attendances.map _
                refine List.mem_map.2
                  ⟨a₀, List.mem_of_find?_eq_some hpa', ?_⟩
                simp
              have hbyid := find?_key_of_mem_nodup Attendance.id
                (attsNodup_of_wf hwf₁) hmemA
              exact ⟨ev, hev, hspev, ⟨prt, hprt⟩, hfe, rfl,
                beq_iff_eq.mp hqe, beq_iff_eq.mp hqp, rfl, rfl,
                hpair, hbyid, hwf₁⟩
            next hes => simp at h₁
          next hcst => simp at h₁
        next hpa =>
          -- fresh insert
          unfold finishRegister at h₁
          rw [if_neg Bool.false_ne_true] at h₁
          split at h₁
          next es hes =>
            simp only [Prod.mk.injEq, Except.ok.injEq] at h₁
            obtain ⟨ha, hdb⟩ := h₁
            subst hdb
            subst ha
            have hwfA := wf_insertAtt eid pid .registered now₁ hwf
            have hwf₁ := wf_setEvents
              (eventsIds_applyEventUpdate hes (fun _ => rfl)) hwfA
            have hfe : findEvent
                (setEvents (insertAtt db
                  ⟨db.nextAttendanceId, eid, pid, .registered, now₁⟩) es) eid =
                some { ev with availableSpots := ev.availableSpots - 1 } := by
              show es.find? (fun e => e.id == eid) = _
              rw [applyEventUpdate_some_eq hes]
              rw [find?_map_comm _ (fun e : Event => e.id == eid)
                (by intro x; by_cases hx : x.id = eid <;> simp [hx])]
              rw [show (insertAtt db
                  ⟨db.nextAttendanceId, eid, pid, .registered, now₁⟩).events.find?
                  (fun e => e.id == eid) = some ev from hev]
              simp [hevide]
            have hpair : findAttendancePair
                (setEvents (insertAtt db
                  ⟨db.nextAttendanceId, eid, pid, .registered, now₁⟩) es)
                eid pid =
                some ⟨db.nextAttendanceId, eid, pid, .registered, now₁⟩ := by
              have hpa' : db.attendances.find?
                  (fun x => x.eventId == eid && x.participantId == pid) =
                  none := hpa
              show (db.attendances ++ [_]).find? _ = _
              rw [find?_append_none _ hpa']
              exact List.find?_cons_of_pos _ (by simp)
            have hmemA : (⟨db.nextAttendanceId, eid, pid, .registered, now₁⟩ :
                Attendance) ∈
                (setEvents (insertAtt db
                  ⟨db.nextAttendanceId, eid, pid, .registered, now₁⟩)
                  es).attendances :=
              List.mem_append_right _ (List.mem_singleton.2 rfl)
            have hbyid := find?_key_of_mem_nodup Attendance.id
              (attsNodup_of_wf hwf₁) hmemA
            exact ⟨ev, hev, hspev, ⟨prt, hprt⟩, hfe, rfl, rfl, rfl, rfl, rfl,
              hpair, hbyid, hwf₁⟩
          next hes => simp at h₁

theorem evsNodup_of_wf {db : DB} (h : wfB db = true) :
    (db.events.map Event.id).Nodup := by
  simp only [wfB, Bool.and_eq_true, decide_eq_true_eq] at h
  exact h.1.1

/-- C3 (amended): after a successful registration of (E, P), a second
`registerAttendance(E, P)` with no intervening cancellation always
fails and leaves the store untouched — with `alreadyRegistered` when
the event still has a free seat, but with the capacity error when the
first registration consumed the last seat (the capacity check precedes
the duplicate check) — so `availableSpots` is decremented exactly once
across the two calls. -/
theorem register_twice_spec {db db₁ : DB} {now₁ : Int} (now₂ : Int)
    {eid pid : String} {a : Attendance} (hwf : wfB db = true)
    (h₁ : registerAttendance now₁ false eid pid db = (.ok a, db₁)) :
    ∃ ev, findEvent db eid = some ev ∧
      findEvent db₁ eid =
        some { ev with availableSpots := ev.availableSpots - 1 } ∧
      registerAttendance now₂ false eid pid db₁ =
        (if ev.availableSpots - 1 ≤ 0 then (.error .noAvailableSpots, db₁)
          else (.error .alreadyRegistered, db₁)) := by
  obtain ⟨ev, hev, hsp, ⟨prt, hprt⟩, hfe, hparts, hae, hap, hst, hrd,
    hpair, hbyid, hwf₁⟩ := register_ok_spec hwf h₁
  refine ⟨ev, hev, hfe, ?_⟩
  have hprt₁ : findParticipant db₁ pid = some prt := by
    show db₁.participants.find? _ = _
    rw [hparts]
    exact hprt
  by_cases hz : ev.availableSpots - 1 ≤ 0
  · rw [if_pos hz]
    simp [registerAttendance, hfe, hprt₁, hz]
  · rw [if_neg hz]
    simp [registerAttendance, hfe, hprt₁, hz, hpair, hst]

/-- Witness for C3 on the capacity-1 store: the second call degrades to
the capacity error. -/
theorem register_twice_spec_witness :
    ∃ ev, findEvent dbC3 "e3" = some ev ∧
      findEvent c3regdb "e3" =
        some { ev with availableSpots := ev.availableSpots - 1 } ∧
      registerAttendance 2 false "e3" "p3" c3regdb =
        (if ev.availableSpots - 1 ≤ 0 then (.error .noAvailableSpots, c3regdb)
          else (.error .alreadyRegistered, c3regdb)) :=
  register_twice_spec 2 (by decide)
    (show registerAttendance 1 false "e3" "p3" dbC3 =
      (.ok ⟨1, "e3", "p3", .registered, 1⟩, c3regdb) by decide)

/-- C4 (amended): after a successful registration, cancelling that
attendance and registering the same pair again succeeds, reuses the
same attendance row identity (same id, no row added), sets status
`registered` with the fresh registration timestamp — but the final
`availableSpots` equals its value right after the *first* registration,
i.e. one less than before the whole cycle. -/
theorem register_cancel_register_spec {db db₁ : DB} {now₁ : Int}
    (now₃ : Int) {eid pid : String} {a : Attendance}
    (hwf : wfB db = true) (hinv : spotsInvB db = true)
    (h₁ : registerAttendance now₁ false eid pid db = (.ok a, db₁)) :
    ∃ ev a₂ db₂ a₃ db₃,
      findEvent db eid = some ev ∧
      cancelAttendance false a.id db₁ = (.ok a₂, db₂) ∧
      registerAttendance now₃ false eid pid db₂ = (.ok a₃, db₃) ∧
      a₃.id = a.id ∧ a₃.status = .registered ∧
      a₃.registrationDate = now₃ ∧
      db₃.attendances.length = db₂.attendances.length ∧
      (∃ ev₃, findEvent db₃ eid = some ev₃ ∧
        ev₃.availableSpots = ev.availableSpots - 1) := by
  obtain ⟨ev, hev, hsp, ⟨prt, hprt⟩, hfe, hparts, hae, hap, hst, hrd,
    hpair, hbyid, hwf₁⟩ := register_ok_spec hwf h₁
  -- bounds of the original event row
  have hev' : db.events.find? (fun e => e.id == eid) = some ev := hev
  have hmemev : ev ∈ db.events := List.mem_of_find?_eq_some hev'
  have hok : spotsOkB ev = true := by
    simp only [spotsInvB, List.all_eq_true] at hinv
    exact hinv ev hmemev
  have hle : ev.availableSpots ≤ ev.capacity := by
    simp only [spotsOkB, Bool.and_eq_true, decide_eq_true_eq] at hok
    exact hok.2
  have h0 : 0 ≤ ev.availableSpots := by
    simp only [spotsOkB, Bool.and_eq_true, decide_eq_true_eq] at hok
    exact hok.1
  have hfe' : db₁.events.find? (fun e => e.id == eid) =
      some { ev with availableSpots := ev.availableSpots - 1 } := hfe
  have hevid0 := List.find?_some hev'
  have hevid : ev.id = eid := beq_iff_eq.mp hevid0
  -- the increment UPDATE of the cancellation succeeds (CHECK holds)
  have hinc : applyEventUpdate
      (updAttRow db₁ a.id .cancelled a.registrationDate).events eid
      (fun e => { e with availableSpots := e.availableSpots + 1 }) =
      some (db₁.events.map fun e => if e.id == eid then
        { e with availableSpots := e.availableSpots + 1 } else e) := by
    apply applyEventUpdate_eq_some
    intro e he hematch
    have := all_match_eq_of_nodup Event.id (evsNodup_of_wf hwf₁) hfe' e he
      hematch
    subst this
    simp only [eventRowOk, Bool.and_eq_true, decide_eq_true_eq]
    refine ⟨⟨by omega, by omega⟩, by omega⟩
  have hcancel : cancelAttendance false a.id db₁ =
      (.ok { a with status := .cancelled },
        setEvents (updAttRow db₁ a.id .cancelled a.registrationDate)
          (db₁.events.map fun e => if e.id == eid then
            { e with availableSpots := e.availableSpots + 1 } else e)) := by
    simp [cancelAttendance, hbyid, hst, Attendance.cancel, hae, hinc]
  -- the state after the cancellation
  have hwf₂ : wfB (setEvents (updAttRow db₁ a.id .cancelled
      a.registrationDate) (db₁.events.map fun e => if e.id == eid then
        { e with availableSpots := e.availableSpots + 1 } else e)) = true := by
    apply wf_setEvents
    · rw [List.map_map]
      apply List.map_congr_left
      intro x _
      by_cases hx : x.id = eid <;> simp [hx]
    · exact wf_updAttRow a.id .cancelled a.registrationDate hwf₁
  have hfe₂ : findEvent (setEvents (updAttRow db₁ a.id .cancelled
      a.registrationDate) (db₁.events.map fun e => if e.id == eid then
        { e with availableSpots := e.availableSpots + 1 } else e)) eid =
      some { ev with availableSpots := ev.availableSpots - 1 + 1 } := by
    show (db₁.events.map _).find? _ = _
    rw [find?_map_comm _ (fun e : Event => e.id == eid)
      (by intro x; by_cases hx : x.id = eid <;> simp [hx])]
    rw [hfe']
    simp [hevid]
  have hprt₂ : findParticipant (setEvents (updAttRow db₁ a.id .cancelled
      a.registrationDate) (db₁.events.map fun e => if e.id == eid then
        { e with availableSpots := e.availableSpots + 1 } else e)) pid =
      some prt := by
    show db₁.participants.find? _ = _
    rw [hparts]
    exact hprt
  have hpair' : db₁.attendances.find?
      (fun x => x.eventId == eid && x.participantId == pid) = some a := hpair
  have hqa0 := List.find?_some hpair'
  have hqa : (a.eventId == eid && a.participantId == pid) = true := hqa0
  have hpair₂ : findAttendancePair (setEvents (updAttRow db₁ a.id .cancelled
      a.registrationDate) (db₁.events.map fun e => if e.id == eid then
        { e with availableSpots := e.availableSpots + 1 } else e)) eid pid =
      some { a with status := .cancelled, registrationDate := a.registrationDate } := by
    show (db₁.attendances.map _).find? _ = _
    exact find?_map_update Attendance.id _
      (fun x => { x with status := .cancelled, registrationDate := a.registrationDate })
      hpair' (attsNodup_of_wf hwf₁) hqa
  -- the decrement UPDATE of the re-registration succeeds
  have hdec : applyEventUpdate
      (updAttRow (setEvents (updAttRow db₁ a.id .cancelled
        a.registrationDate) (db₁.events.map fun e => if e.id == eid then
          { e with availableSpots := e.availableSpots + 1 } else e))
        a.id .registered now₃).events eid
      (fun e => { e with availableSpots := e.availableSpots - 1 }) =
      some ((db₁.events.map fun e => if e.id == eid then
          { e with availableSpots := e.availableSpots + 1 } else e).map
        fun e => if e.id == eid then
          { e with availableSpots := e.availableSpots - 1 } else e) := by
    apply applyEventUpdate_eq_some
    intro e he hematch
    have hfe₂' : (setEvents (updAttRow db₁ a.id .cancelled a.registrationDate)
        (db₁.events.map fun e => if e.id == eid then
          { e with availableSpots := e.availableSpots + 1 } else e)).events.find?
        (fun e => e.id == eid) =
        some { ev with availableSpots := ev.availableSpots - 1 + 1 } := hfe₂
    have := all_match_eq_of_nodup Event.id (evsNodup_of_wf hwf₂) hfe₂' e he
      hematch
    subst this
    simp only [eventRowOk, Bool.and_eq_true, decide_eq_true_eq]
    refine ⟨⟨by omega, by omega⟩, by omega⟩
  have hreg₃ : registerAttendance now₃ false eid pid
      (setEvents (updAttRow db₁ a.id .cancelled a.registrationDate)
        (db₁.events.map fun e => if e.id == eid then
          { e with availableSpots := e.availableSpots + 1 } else e)) =
      (.ok { a with status := .registered, registrationDate := now₃ },
        setEvents (updAttRow (setEvents (updAttRow db₁ a.id .cancelled
            a.registrationDate) (db₁.events.map fun e => if e.id == eid then
              { e with availableSpots := e.availableSpots + 1 } else e))
          a.id .registered now₃)
          ((db₁.events.map fun e => if e.id == eid then
              { e with availableSpots := e.availableSpots + 1 } else e).map
            fun e => if e.id == eid then
              { e with availableSpots := e.availableSpots - 1 } else e)) := by
    have hspot₂ : ¬(ev.availableSpots - 1 + 1 ≤ 0) := by omega
    simp at hfe₂ hprt₂ hpair₂ hdec
    simp [registerAttendance, finishRegister, hfe₂, hprt₂, hpair₂, hdec,
      hspot₂]
    omega
  refine ⟨ev, { a with status := .cancelled }, _,
    { a with status := .registered, registrationDate := now₃ }, _,
    hev, hcancel, hreg₃, rfl, rfl, rfl, ?_, ?_⟩
  · show (List.map _ _).length = _
    rw [List.length_map]
  · refine ⟨{ ev with availableSpots := ev.availableSpots - 1 + 1 - 1 }, ?_,
      by show ev.availableSpots - 1 + 1 - 1 = ev.availableSpots - 1; omega⟩
    show ((db₁.events.map _).map _).find? _ = _
    rw [find?_map_comm _ (fun e : Event => e.id == eid)
      (by intro x; by_cases hx : x.id = eid <;> simp [hx])]
    rw [find?_map_comm _ (fun e : Event => e.id == eid)
      (by intro x; by_cases hx : x.id = eid <;> simp [hx])]
    rw [hfe']
    simp [hevid]

/-- Witness for C4 on the capacity-1 store: the cycle succeeds, reuses
row 1, and lands one seat below the pre-cycle count. -/
theorem register_cancel_register_spec_witness :
    ∃ ev a₂ db₂ a₃ db₃,
      findEvent dbC4 "e4" = some ev ∧
      cancelAttendance false 1 c4db₁ = (.ok a₂, db₂) ∧
      registerAttendance 9 false "e4" "p4" db₂ = (.ok a₃, db₃) ∧
      a₃.id = 1 ∧ a₃.status = .registered ∧ a₃.registrationDate = 9 ∧
      db₃.attendances.length = db₂.attendances.length ∧
      (∃ ev₃, findEvent db₃ "e4" = some ev₃ ∧
        ev₃.availableSpots = ev.availableSpots - 1) :=
  register_cancel_register_spec 9 (by decide) (by decide)
    (show registerAttendance 3 false "e4" "p4" dbC4 =
      (.ok ⟨1, "e4", "p4", .registered, 3⟩, c4db₁) by decide)

/-! ## C8 — the `keys(pattern)` contract -/

theorem splitOnStar_no_star {s : List Char} (h : '*' ∉ s) :
    splitOnStar s = [s] := by
  induction s with
  | nil => rfl
  | cons c cs ih =>
    have hc : ¬c = '*' := fun hc => h (hc ▸ List.mem_cons_self c cs)
    have hcs : '*' ∉ cs := fun hm => h (List.mem_cons_of_mem c hm)
    rw [splitOnStar, ih hcs]
    simp [hc]

theorem splitOnStar_one_star {pre suf : List Char} (hp : '*' ∉ pre)
    (hs : '*' ∉ suf) : splitOnStar (pre ++ '*' :: suf) = [pre, suf] := by
  induction pre with
  | nil =>
    rw [List.nil_append, splitOnStar, splitOnStar_no_star hs]
    simp
  | cons c cs ih =>
    have hc : ¬c = '*' := fun hc => hp (hc ▸ List.mem_cons_self c cs)
    have hcs : '*' ∉ cs := fun hm => hp (List.mem_cons_of_mem c hm)
    rw [List.cons_append, splitOnStar, ih hcs]
    simp [hc]

theorem any_tails_eq_suffix {q l : List Char} :
    (l.tails.any fun t => q == t) = true ↔ q <:+ l := by
  rw [List.any_eq_true]
  constructor
  · rintro ⟨t, ht, hq⟩
    rw [beq_iff_eq] at hq
    subst hq
    exact (List.mem_tails _ _).1 ht
  · intro h
    exact ⟨q, (List.mem_tails _ _).2 h, beq_self_eq_true q⟩

/-- The spec-side decomposition property, restated through prefix and
suffix. -/
theorem oneWildcardMatch_iff (pre suf k : List Char) :
    OneWildcardMatch pre suf k ↔
      pre <+: k ∧ suf <:+ k.drop pre.length := by
  constructor
  · rintro ⟨mid, rfl⟩
    refine ⟨⟨mid ++ suf, by simp [List.append_assoc]⟩, ?_⟩
    rw [List.append_assoc, List.drop_left]
    exact List.suffix_append mid suf
  · rintro ⟨⟨r, hr⟩, hsuf⟩
    subst hr
    rw [List.drop_left] at hsuf
    obtain ⟨mid, hmid⟩ := hsuf
    exact ⟨mid, by rw [← hmid, List.append_assoc]⟩

theorem partsMatch_pair (p q s : List Char) :
    partsMatch [p, q] s =
      (p.isPrefixOf s && ((s.drop p.length).tails.any fun t => q == t)) := by
  rfl

/-- C8 (counterexample to the claim as stated): `CacheService.keys`
interpolates the pattern into the regex without escaping, so the
non-wildcard character `.` of pattern `"a.*"` matches any character:
the stored key `"axb"` is returned although it is not of the form
`"a." ++ anything`. -/
theorem cacheServiceKeys_dot_matches_any_char :
    cacheServiceKeys c8store (some "a.*") = ["axb"] ∧
    ¬ OneWildcardMatch "a.".toList [] "axb".toList := by
  refine ⟨by decide, ?_⟩
  rw [oneWildcardMatch_iff]
  decide

/-- C8 (amended, for `memoryCacheService.keys`, whose parts are
regex-escaped): with a single-wildcard pattern `pre ++ '*' ++ suf` the
returned keys are exactly the stored keys of the form
`pre ++ anything ++ suf`, and with no pattern all stored keys are
returned. -/
theorem memoryCacheKeys_one_wildcard (c : Cache) (pre suf : List Char)
    (hp : '*' ∉ pre) (hs : '*' ∉ suf) (k : String) :
    (k ∈ memoryCacheKeys c (some (String.mk (pre ++ '*' :: suf))) ↔
      k ∈ cacheKeysList c ∧ OneWildcardMatch pre suf k.toList) ∧
    memoryCacheKeys c none = cacheKeysList c := by
  refine ⟨?_, rfl⟩
  unfold memoryCacheKeys
  rw [List.mem_filter]
  have htl : (String.mk (pre ++ '*' :: suf)).toList = pre ++ '*' :: suf := rfl
  rw [htl, splitOnStar_one_star hp hs]
  apply and_congr_right
  intro _
  rw [partsMatch_pair, Bool.and_eq_true, oneWildcardMatch_iff]
  exact and_congr List.isPrefixOf_iff_prefix any_tails_eq_suffix

/-- Witness for C8 at a concrete store and the pattern `"event:*"`. -/
theorem memoryCacheKeys_one_wildcard_witness :
    ("event:1" ∈ memoryCacheKeys c8wstore
        (some (String.mk ("event:".toList ++ '*' :: []))) ↔
      "event:1" ∈ cacheKeysList c8wstore ∧
        OneWildcardMatch "event:".toList [] "event:1".toList) ∧
    memoryCacheKeys c8wstore none = cacheKeysList c8wstore :=
  memoryCacheKeys_one_wildcard c8wstore "event:".toList [] (by decide)
    (by decide) "event:1"

/-! ## C9 — cache-layer bookkeeping lemmas -/

theorem mem_cacheDeleteKeys {c : Cache} {ks : List String} {en : CEntry}
    (h : en ∈ cacheDeleteKeys c ks) : en ∈ c ∧ ∀ k ∈ ks, ¬en.key = k := by
  induction ks generalizing c with
  | nil => exact ⟨h, by intro k hk; cases hk⟩
  | cons k ks ih =>
    obtain ⟨hmem, hrest⟩ := ih h
    have hf := List.mem_filter.1 hmem
    refine ⟨hf.1, ?_⟩
    intro k' hk'
    rcases List.mem_cons.1 hk' with rfl | hk'
    · intro he
      simp [he] at hf
    · exact hrest k' hk'

theorem cacheGet_sub {now : Int} {c : Cache} {k : String} :
    ∀ en ∈ (cacheGet now c k).2, en ∈ c := by
  unfold cacheGet
  split
  · exact fun en hen => hen
  · split
    · split
      · exact fun en hen => (List.mem_filter.1 hen).1
      · exact fun en hen => hen
    · exact fun en hen => hen

theorem cacheGet_hit {now : Int} {c : Cache} {k : String} {v : CVal}
    {c₁ : Cache} (h : cacheGet now c k = (some v, c₁)) :
    ∃ en ∈ c, en.key = k ∧ en.value = v := by
  unfold cacheGet at h
  split at h
  · simp at h
  next en hfind =>
    have hmem := List.mem_of_find?_eq_some hfind
    have hkey0 := List.find?_some hfind
    have hkey : (en.key == k) = true := hkey0
    split at h
    · split at h
      · simp at h
      · simp only [Prod.mk.injEq] at h
        exact ⟨en, hmem, beq_iff_eq.mp hkey, Option.some.inj h.1⟩
    · simp only [Prod.mk.injEq] at h
      exact ⟨en, hmem, beq_iff_eq.mp hkey, Option.some.inj h.1⟩

theorem mem_cacheSet {now : Int} {c : Cache} {k : String} {v : CVal}
    {ttl : Option Int} {en : CEntry} (h : en ∈ cacheSet now c k v ttl) :
    en ∈ c ∨ en = ⟨k, v, ttl.map fun t => now + t * 1000⟩ := by
  unfold cacheSet at h
  split at h
  · rcases List.mem_map.1 h with ⟨x, hx, rfl⟩
    by_cases hxk : (x.key == k) = true
    · right
      simp [hxk]
    · left
      simpa [hxk] using hx
  · rcases List.mem_append.1 h with h | h
    · exact Or.inl h
    · exact Or.inr (List.mem_singleton.1 h)

theorem Coh_sub {now : Int} {db : DB} {c c' : Cache}
    (hsub : ∀ en ∈ c', en ∈ c) (hc : Coh now db c) : Coh now db c' :=
  fun en hen => hc en (hsub en hen)

theorem str_append_left_cancel {s t u : String} (h : s ++ t = s ++ u) :
    t = u := by
  have h2 : s.data ++ t.data = s.data ++ u.data := congrArg String.data h
  have h3 := List.append_cancel_left h2
  cases t with
  | mk td =>
    cases u with
    | mk ud => exact congrArg String.mk h3

theorem eventKey_inj {i j : String} (h : eventKey i = eventKey j) : i = j :=
  str_append_left_cancel h

theorem attsKey_inj {i j : String} (h : attsKey i = attsKey j) : i = j :=
  str_append_left_cancel h

theorem allKey_ne_availKey : allEventsKey ≠ availEventsKey := by decide

/-! ## C9 — counting machinery for the seats/rows accounting -/

theorem length_filter_cons {α : Type} (p : α → Bool) (x : α) (l : List α) :
    ((x :: l).filter p).length =
      (if p x then 1 else 0) + (l.filter p).length := by
  rw [List.filter_cons]
  by_cases h : p x = true <;> simp [h] <;> omega

theorem length_filter_singleton {α : Type} (p : α → Bool) (x : α) :
    (([x]).filter p).length = if p x then 1 else 0 := by
  rw [length_filter_cons]
  simp

theorem length_filter_append {α : Type} (p : α → Bool) (l₁ l₂ : List α) :
    ((l₁ ++ l₂).filter p).length =
      (l₁.filter p).length + (l₂.filter p).length := by
  rw [List.filter_append, List.length_append]

/-- Toggling the unique row keyed `a₀.id` moves the filter count by the
difference of the row's old and new predicate values. -/
theorem length_filter_updMap {l : List Attendance}
    (hnd : (l.map Attendance.id).Nodup) {a₀ : Attendance} (ha : a₀ ∈ l)
    (f : Attendance → Attendance) (p : Attendance → Bool) :
    ((l.map fun x => if x.id == a₀.id then f x else x).filter p).length +
      (if p a₀ then 1 else 0) =
    (l.filter p).length + (if p (f a₀) then 1 else 0) := by
  induction l with
  | nil => cases ha
  | cons x t ih =>
    rw [List.map_cons] at hnd
    have hnd' := List.nodup_cons.1 hnd
    rcases List.mem_cons.1 ha with rfl | hmem
    · have hmapt : (t.map fun y => if y.id == a₀.id then f y else y) = t := by
        have hcong : ∀ y ∈ t, (if y.id == a₀.id then f y else y) = id y := by
          intro y hy
          have hne : ¬y.id = a₀.id := by
            intro he
            exact hnd'.1 (by rw [← he]; exact List.mem_map_of_mem _ hy)
          simp [hne]
        rw [List.map_congr_left hcong, List.map_id]
      rw [List.map_cons, hmapt,
        show (if a₀.id == a₀.id then f a₀ else a₀) = f a₀ by simp,
        length_filter_cons, length_filter_cons]
      omega
    · have hxa : ¬x.id = a₀.id := by
        intro he
        exact hnd'.1 (by rw [he]; exact List.mem_map_of_mem _ hmem)
      rw [List.map_cons,
        show (if x.id == a₀.id then f x else x) = x by simp [hxa],
        length_filter_cons, length_filter_cons]
      have := ih hnd'.2 hmem
      omega

/-- Toggling a row the filter ignores (before and after) leaves the
filtered list itself unchanged. -/
theorem filter_map_toggle_skip {l : List Attendance}
    (hnd : (l.map Attendance.id).Nodup) {a₀ : Attendance} (ha : a₀ ∈ l)
    (f : Attendance → Attendance) (p : Attendance → Bool)
    (hp1 : p a₀ = false) (hp2 : p (f a₀) = false) :
    (l.map fun x => if x.id == a₀.id then f x else x).filter p =
      l.filter p := by
  induction l with
  | nil => cases ha
  | cons x t ih =>
    rw [List.map_cons] at hnd
    have hnd' := List.nodup_cons.1 hnd
    rcases List.mem_cons.1 ha with rfl | hmem
    · have hmapt : (t.map fun y => if y.id == a₀.id then f y else y) = t := by
        have hcong : ∀ y ∈ t, (if y.id == a₀.id then f y else y) = id y := by
          intro y hy
          have hne : ¬y.id = a₀.id := by
            intro he
            exact hnd'.1 (by rw [← he]; exact List.mem_map_of_mem _ hy)
          simp [hne]
        rw [List.map_congr_left hcong, List.map_id]
      rw [List.map_cons, hmapt,
        show (if a₀.id == a₀.id then f a₀ else a₀) = f a₀ by simp,
        List.filter_cons, List.filter_cons, hp1, hp2]
      simp
    · have hxa : ¬x.id = a₀.id := by
        intro he
        exact hnd'.1 (by rw [he]; exact List.mem_map_of_mem _ hmem)
      rw [List.map_cons,
        show (if x.id == a₀.id then f x else x) = x by simp [hxa],
        List.filter_cons, List.filter_cons, ih hnd'.2 hmem]

theorem countInv_event {db : DB} (hcnt : countInvB db = true) {e : Event}
    (he : e ∈ db.events) :
    ((db.attendances.filter fun a =>
        a.eventId == e.id && a.isActive).length : Int) =
      e.capacity - e.availableSpots := by
  simp only [countInvB, List.all_eq_true] at hcnt
  exact beq_iff_eq.mp (hcnt e he)

theorem goodB_parts {db : DB} (hg : goodB db = true) :
    wfB db = true ∧ spotsInvB db = true ∧ countInvB db = true ∧
      eventIdsClean db = true := by
  simp only [goodB, Bool.and_eq_true] at hg
  exact ⟨hg.1.1.1, hg.1.1.2, hg.1.2, hg.2⟩

/-! ## C9 — the accounting invariant across the four attendance writes -/

theorem countInv_shape_insert {db : DB} (eid pid : String) (now : Int)
    (hcnt : countInvB db = true) :
    countInvB (setEvents
      (insertAtt db ⟨db.nextAttendanceId, eid, pid, .registered, now⟩)
      (db.events.map fun e => if e.id == eid then
        { e with availableSpots := e.availableSpots - 1 } else e)) = true := by
  simp only [countInvB, List.all_eq_true]
  intro e' he'
  rcases List.mem_map.1 he' with ⟨e, he, rfl⟩
  have hcount := countInv_event hcnt he
  by_cases hid : e.id = eid
  · subst hid
    rw [if_pos (beq_self_eq_true e.id)]
    apply beq_iff_eq.2
    show (((db.attendances ++
        [(⟨db.nextAttendanceId, e.id, pid, .registered, now⟩ : Attendance)]).filter
        fun a => a.eventId == e.id && a.isActive).length : Int) =
      e.capacity - (e.availableSpots - 1)
    rw [length_filter_append, length_filter_singleton,
      if_pos (show ((⟨db.nextAttendanceId, e.id, pid,
        AttendanceStatus.registered, now⟩ : Attendance).eventId == e.id &&
        (⟨db.nextAttendanceId, e.id, pid, AttendanceStatus.registered,
        now⟩ : Attendance).isActive) = true by simp [Attendance.isActive])]
    push_cast
    omega
  · rw [if_neg (by simp [hid])]
    apply beq_iff_eq.2
    show (((db.attendances ++
        [(⟨db.nextAttendanceId, eid, pid, .registered, now⟩ : Attendance)]).filter
        fun a => a.eventId == e.id && a.isActive).length : Int) =
      e.capacity - e.availableSpots
    rw [length_filter_append, length_filter_singleton,
      if_neg (show ¬(((⟨db.nextAttendanceId, eid, pid,
        AttendanceStatus.registered, now⟩ : Attendance).eventId == e.id &&
        (⟨db.nextAttendanceId, eid, pid, AttendanceStatus.registered,
        now⟩ : Attendance).isActive) = true) by
        simp [Attendance.isActive]
        exact fun h => hid h.symm)]
    push_cast
    omega

theorem countInv_shape_reuse {db : DB} {a₀ : Attendance} (now : Int)
    (hnd : (db.attendances.map Attendance.id).Nodup)
    (ha : a₀ ∈ db.attendances) (hst : a₀.status = .cancelled)
    (hcnt : countInvB db = true) :
    countInvB (setEvents (updAttRow db a₀.id .registered now)
      (db.events.map fun e => if e.id == a₀.eventId then
        { e with availableSpots := e.availableSpots - 1 } else e)) = true := by
  simp only [countInvB, List.all_eq_true]
  intro e' he'
  rcases List.mem_map.1 he' with ⟨e, he, rfl⟩
  have hcount := countInv_event hcnt he
  have hkey := length_filter_updMap hnd ha
    (fun x => { x with status := .registered, registrationDate := now })
    (fun a => a.eventId == e.id && a.isActive)
  rw [if_neg (show ¬(((a₀.eventId == e.id) && a₀.isActive) = true) by
    simp [Attendance.isActive, hst])] at hkey
  by_cases hid : e.id = a₀.eventId
  · rw [if_pos (by simp [hid])]
    apply beq_iff_eq.2
    show (((db.attendances.map fun x => if x.id == a₀.id then
        { x with status := .registered, registrationDate := now } else x).filter
        fun a => a.eventId == e.id && a.isActive).length : Int) =
      e.capacity - (e.availableSpots - 1)
    rw [if_pos (show (({ a₀ with status := AttendanceStatus.registered, registrationDate := now } : Attendance).eventId == e.id &&
        ({ a₀ with status := AttendanceStatus.registered, registrationDate := now } : Attendance).isActive) = true by
        simp [Attendance.isActive, hid])] at hkey
    push_cast
    omega
  · rw [if_neg (by simp [hid])]
    apply beq_iff_eq.2
    show (((db.attendances.map fun x => if x.id == a₀.id then
        { x with status := .registered, registrationDate := now } else x).filter
        fun a => a.eventId == e.id && a.isActive).length : Int) =
      e.capacity - e.availableSpots
    rw [if_neg (show ¬((({ a₀ with status := AttendanceStatus.registered, registrationDate := now } : Attendance).eventId == e.id &&
        ({ a₀ with status := AttendanceStatus.registered, registrationDate := now } : Attendance).isActive) = true) by
        simp [Attendance.isActive]
        exact fun h => hid h.symm)] at hkey
    push_cast
    omega

theorem countInv_shape_cancel {db : DB} {a : Attendance}
    (hnd : (db.attendances.map Attendance.id).Nodup)
    (ha : a ∈ db.attendances) (hact : ¬a.status = .cancelled)
    (hcnt : countInvB db = true) :
    countInvB (setEvents (updAttRow db a.id .cancelled a.registrationDate)
      (db.events.map fun e => if e.id == a.eventId then
        { e with availableSpots := e.availableSpots + 1 } else e)) = true := by
  simp only [countInvB, List.all_eq_true]
  intro e' he'
  rcases List.mem_map.1 he' with ⟨e, he, rfl⟩
  have hcount := countInv_event hcnt he
  have hkey := length_filter_updMap hnd ha
    (fun x => { x with status := .cancelled, registrationDate := a.registrationDate })
    (fun x => x.eventId == e.id && x.isActive)
  rw [if_neg (show ¬((({ a with status := AttendanceStatus.cancelled, registrationDate := a.registrationDate } : Attendance).eventId == e.id &&
      ({ a with status := AttendanceStatus.cancelled, registrationDate := a.registrationDate } : Attendance).isActive) = true) by
      simp [Attendance.isActive])] at hkey
  by_cases hid : e.id = a.eventId
  · rw [if_pos (by simp [hid])]
    apply beq_iff_eq.2
    show (((db.attendances.map fun x => if x.id == a.id then
        { x with status := .cancelled, registrationDate := a.registrationDate } else x).filter
        fun x => x.eventId == e.id && x.isActive).length : Int) =
      e.capacity - (e.availableSpots + 1)
    rw [if_pos (show ((a.eventId == e.id) && a.isActive) = true by
        simp [Attendance.isActive, hid, hact])] at hkey
    push_cast
    omega
  · rw [if_neg (by simp [hid])]
    apply beq_iff_eq.2
    show (((db.attendances.map fun x => if x.id == a.id then
        { x with status := .cancelled, registrationDate := a.registrationDate } else x).filter
        fun x => x.eventId == e.id && x.isActive).length : Int) =
      e.capacity - e.availableSpots
    rw [if_neg (show ¬(((a.eventId == e.id) && a.isActive) = true) by
        simp [Attendance.isActive]
        exact fun h => (hid h.symm).elim)] at hkey
    push_cast
    omega

theorem countInv_shape_status {db : DB} {a : Attendance}
    (st : AttendanceStatus) (rd : Int)
    (hnd : (db.attendances.map Attendance.id).Nodup)
    (ha : a ∈ db.attendances) (hst1 : ¬st = .cancelled)
    (hst2 : ¬a.status = .cancelled)
    (hcnt : countInvB db = true) :
    countInvB (updAttRow db a.id st rd) = true := by
  simp only [countInvB, List.all_eq_true]
  intro e he
  have hcount := countInv_event hcnt he
  have hkey := length_filter_updMap hnd ha
    (fun x => { x with status := st, registrationDate := rd })
    (fun x => x.eventId == e.id && x.isActive)
  apply beq_iff_eq.2
  show (((db.attendances.map fun x => if x.id == a.id then
      { x with status := st, registrationDate := rd } else x).filter
      fun x => x.eventId == e.id && x.isActive).length : Int) =
    e.capacity - e.availableSpots
  by_cases hcond : a.eventId = e.id
  · rw [if_pos (show (({ a with status := st, registrationDate := rd } : Attendance).eventId == e.id &&
        ({ a with status := st, registrationDate := rd } : Attendance).isActive) = true by
        simp [Attendance.isActive, hcond, hst1])] at hkey
    rw [if_pos (show ((a.eventId == e.id) && a.isActive) = true by
        simp [Attendance.isActive, hcond, hst2])] at hkey
    push_cast
    omega
  · rw [if_neg (show ¬((({ a with status := st, registrationDate := rd } : Attendance).eventId == e.id &&
        ({ a with status := st, registrationDate := rd } : Attendance).isActive) = true) by
        simp [Attendance.isActive]
        exact fun h => (hcond h).elim)] at hkey
    rw [if_neg (show ¬(((a.eventId == e.id) && a.isActive) = true) by
        simp [Attendance.isActive]
        exact fun h => (hcond h).elim)] at hkey
    push_cast
    omega

/-! ## C9 — case analyses of the mutations under the store invariants -/

/-- Under the invariants, the counter decrement's CHECK constraints hold
on the (unique) matched row whenever the service's capacity guard
passed, so the UPDATE succeeds. -/
theorem dec_check_ok {db : DB} {eid : String} {ev : Event}
    (hwf : wfB db = true) (hs : spotsInvB db = true)
    (hev : findEvent db eid = some ev) (hsp : 0 < ev.availableSpots) :
    applyEventUpdate db.events eid
      (fun e => { e with availableSpots := e.availableSpots - 1 }) =
      some (db.events.map fun e => if e.id == eid then
        { e with availableSpots := e.availableSpots - 1 } else e) := by
  apply applyEventUpdate_eq_some
  intro e he hid
  have hfind : db.events.find? (fun x => x.id == eid) = some ev := hev
  have heq := all_match_eq_of_nodup Event.id (evsNodup_of_wf hwf) hfind e he hid
  subst heq
  have hmem := List.mem_of_find?_eq_some hfind
  simp only [spotsInvB, List.all_eq_true] at hs
  have hok := hs e hmem
  simp only [spotsOkB, Bool.and_eq_true, decide_eq_true_eq] at hok
  simp only [eventRowOk, Bool.and_eq_true, decide_eq_true_eq]
  refine ⟨⟨by omega, by omega⟩, by omega⟩

/-- Under the invariants, the counter increment's CHECK constraints hold
on any row matching the event of a still-active attendance (the count
invariant puts at least one active row against the seats already
consumed), so the UPDATE succeeds. -/
theorem inc_check_ok {db : DB} {a : Attendance}
    (hwf : wfB db = true) (hs : spotsInvB db = true)
    (hcnt : countInvB db = true) (ha : a ∈ db.attendances)
    (hact : ¬a.status = .cancelled) :
    applyEventUpdate db.events a.eventId
      (fun e => { e with availableSpots := e.availableSpots + 1 }) =
      some (db.events.map fun e => if e.id == a.eventId then
        { e with availableSpots := e.availableSpots + 1 } else e) := by
  apply applyEventUpdate_eq_some
  intro e he hid
  have hcb := countInv_event hcnt he
  have haid : a.eventId = e.id := (beq_iff_eq.mp hid).symm
  have hmemf : a ∈ db.attendances.filter
      fun x => x.eventId == e.id && x.isActive :=
    List.mem_filter.2 ⟨ha, by simp [haid, Attendance.isActive, hact]⟩
  have hpos : 0 < (db.attendances.filter
      fun x => x.eventId == e.id && x.isActive).length :=
    List.length_pos.2 (List.ne_nil_of_mem hmemf)
  simp only [spotsInvB, List.all_eq_true] at hs
  have hok := hs e he
  simp only [spotsOkB, Bool.and_eq_true, decide_eq_true_eq] at hok
  simp only [eventRowOk, Bool.and_eq_true, decide_eq_true_eq]
  refine ⟨⟨by omega, by omega⟩, by omega⟩

/-- A successful registration's store is one of two explicit shapes: a
fresh row appended, or the cancelled row for the pair reactivated — in
both cases with the matched event's counter decremented. -/
theorem register_shape {db db₁ : DB} {now : Int} {eid pid : String}
    {a : Attendance}
    (h₁ : registerAttendance now false eid pid db = (.ok a, db₁)) :
    (findAttendancePair db eid pid = none ∧
        a = ⟨db.nextAttendanceId, eid, pid, .registered, now⟩ ∧
        db₁ = setEvents
          (insertAtt db ⟨db.nextAttendanceId, eid, pid, .registered, now⟩)
          (db.events.map fun e => if e.id == eid then
            { e with availableSpots := e.availableSpots - 1 } else e)) ∨
      (∃ a₀, findAttendancePair db eid pid = some a₀ ∧
        a₀.status = .cancelled ∧ a₀.eventId = eid ∧ a₀ ∈ db.attendances ∧
        a = { a₀ with status := .registered, registrationDate := now } ∧
        db₁ = setEvents (updAttRow db a₀.id .registered now)
          (db.events.map fun e => if e.id == eid then
            { e with availableSpots := e.availableSpots - 1 } else e)) := by
  unfold registerAttendance at h₁
  split at h₁
  · simp at h₁
  next ev hev =>
    split at h₁
    · simp at h₁
    next prt hprt =>
      split at h₁
      · simp at h₁
      next hsp =>
        split at h₁
        next a₀ hpa =>
          split at h₁
          next hcst =>
            unfold finishRegister at h₁
            rw [if_neg Bool.false_ne_true] at h₁
            split at h₁
            next es hes =>
              simp only [Prod.mk.injEq, Except.ok.injEq] at h₁
              obtain ⟨ha, hdb⟩ := h₁
              subst hdb
              subst ha
              have hpa' : db.attendances.find?
                  (fun x => x.eventId == eid && x.participantId == pid) =
                  some a₀ := hpa
              have hq0 := List.find?_some hpa'
              have hq : (a₀.eventId == eid && a₀.participantId == pid) =
                  true := hq0
              have hqe : a₀.eventId = eid := by
                simp only [Bool.and_eq_true, beq_iff_eq] at hq
                exact hq.1
              refine Or.inr ⟨a₀, hpa, hcst, hqe,
                List.mem_of_find?_eq_some hpa', rfl, ?_⟩
              rw [applyEventUpdate_some_eq hes]
              rfl
            next hes => simp at h₁
          next hcst => simp at h₁
        next hpa =>
          unfold finishRegister at h₁
          rw [if_neg Bool.false_ne_true] at h₁
          split at h₁
          next es hes =>
            simp only [Prod.mk.injEq, Except.ok.injEq] at h₁
            obtain ⟨ha, hdb⟩ := h₁
            subst hdb
            subst ha
            refine Or.inl ⟨hpa, rfl, ?_⟩
            rw [applyEventUpdate_some_eq hes]
            rfl
          next hes => simp at h₁

/-- A failed registration (no injected failure) leaves the store
untouched: the only failing step that could mutate — the decrement whose
CHECK violation would strand the attendance write — cannot fail under
the invariants. -/
theorem register_err {db db₂ : DB} {now : Int} {eid pid : String}
    {er : SvcError} (hwf : wfB db = true) (hs : spotsInvB db = true)
    (h₁ : registerAttendance now false eid pid db = (.error er, db₂)) :
    db₂ = db := by
  unfold registerAttendance at h₁
  split at h₁
  · simp only [Prod.mk.injEq] at h₁
    exact h₁.2.symm
  next ev hev =>
    split at h₁
    · simp only [Prod.mk.injEq] at h₁
      exact h₁.2.symm
    next prt hprt =>
      split at h₁
      · simp only [Prod.mk.injEq] at h₁
        exact h₁.2.symm
      next hsp =>
        have hsp' : 0 < ev.availableSpots := not_le.1 hsp
        split at h₁
        next a₀ hpa =>
          split at h₁
          next hcst =>
            unfold finishRegister at h₁
            rw [if_neg Bool.false_ne_true] at h₁
            split at h₁
            next es hes => simp at h₁
            next hes =>
              exfalso
              have hd : applyEventUpdate
                  (updAttRow db a₀.id .registered now).events eid
                  (fun e => { e with availableSpots := e.availableSpots - 1 }) =
                  some (db.events.map fun e => if e.id == eid then
                    { e with availableSpots := e.availableSpots - 1 } else e) :=
                @dec_check_ok db eid ev hwf hs hev hsp'
              rw [hd] at hes
              simp at hes
          next hcst =>
            simp only [Prod.mk.injEq] at h₁
            exact h₁.2.symm
        next hpa =>
          unfold finishRegister at h₁
          rw [if_neg Bool.false_ne_true] at h₁
          split at h₁
          next es hes => simp at h₁
          next hes =>
            exfalso
            have hd : applyEventUpdate
                (insertAtt db
                  ⟨db.nextAttendanceId, eid, pid, .registered, now⟩).events eid
                (fun e => { e with availableSpots := e.availableSpots - 1 }) =
                some (db.events.map fun e => if e.id == eid then
                  { e with availableSpots := e.availableSpots - 1 } else e) :=
              @dec_check_ok db eid ev hwf hs hev hsp'
            rw [hd] at hes
            simp at hes

/-- A successful cancellation's store, explicitly: the found active row
set to cancelled and the matched event's counter incremented. -/
theorem cancel_shape {db db₁ : DB} {aid : Nat} {a' : Attendance}
    (h₁ : cancelAttendance false aid db = (.ok a', db₁)) :
    ∃ a, findAttendance db aid = some a ∧ a.id = aid ∧
      ¬a.status = .cancelled ∧ a ∈ db.attendances ∧
      a' = { a with status := .cancelled } ∧
      db₁ = setEvents (updAttRow db a.id .cancelled a.registrationDate)
        (db.events.map fun e => if e.id == a.eventId then
          { e with availableSpots := e.availableSpots + 1 } else e) := by
  unfold cancelAttendance at h₁
  split at h₁
  · simp at h₁
  next a ha =>
    split at h₁
    · simp at h₁
    next hnc =>
      split at h₁
      next er hcan => simp at h₁
      next a'' hcan =>
        rw [if_neg Bool.false_ne_true] at h₁
        split at h₁
        next es hes =>
          simp only [Prod.mk.injEq, Except.ok.injEq] at h₁
          obtain ⟨ha', hdb⟩ := h₁
          subst hdb
          unfold Attendance.cancel at hcan
          split at hcan
          · simp at hcan
          · have ha'' := Except.ok.inj hcan
            have hfind : db.attendances.find? (fun x => x.id == aid) =
                some a := ha
            have hk0 := List.find?_some hfind
            have haid : a.id = aid := beq_iff_eq.mp hk0
            refine ⟨a, ha, haid, hnc, List.mem_of_find?_eq_some hfind,
              by rw [← ha', ← ha''], ?_⟩
            rw [applyEventUpdate_some_eq hes, haid]
            rfl
        next hes => simp at h₁

/-- A failed cancellation (no injected failure) leaves the store
untouched: the increment's CHECK constraints cannot fail under the
invariants, because the row being cancelled still counts against the
seats. -/
theorem cancel_err {db db₂ : DB} {aid : Nat} {er : SvcError}
    (hwf : wfB db = true) (hs : spotsInvB db = true)
    (hcnt : countInvB db = true)
    (h₁ : cancelAttendance false aid db = (.error er, db₂)) :
    db₂ = db := by
  unfold cancelAttendance at h₁
  split at h₁
  · simp only [Prod.mk.injEq] at h₁
    exact h₁.2.symm
  next a ha =>
    split at h₁
    · simp only [Prod.mk.injEq] at h₁
      exact h₁.2.symm
    next hnc =>
      split at h₁
      next er' hcan =>
        simp only [Prod.mk.injEq] at h₁
        exact h₁.2.symm
      next a'' hcan =>
        rw [if_neg Bool.false_ne_true] at h₁
        split at h₁
        next es hes => simp at h₁
        next hes =>
          exfalso
          have hfind : db.attendances.find? (fun x => x.id == aid) =
              some a := ha
          have hmem := List.mem_of_find?_eq_some hfind
          have hi : applyEventUpdate
              (updAttRow db aid .cancelled a.registrationDate).events
              a.eventId
              (fun e => { e with availableSpots := e.availableSpots + 1 }) =
              some (db.events.map fun e => if e.id == a.eventId then
                { e with availableSpots := e.availableSpots + 1 } else e) :=
            @inc_check_ok db a hwf hs hcnt hmem hnc
          rw [hi] at hes
          simp at hes

/-- A successful confirmation's store, explicitly: the found
non-cancelled row set to confirmed; events untouched. -/
theorem confirm_shape {db db₁ : DB} {aid : Nat} {a' : Attendance}
    (h₁ : confirmAttendance aid db = (.ok a', db₁)) :
    ∃ a, findAttendance db aid = some a ∧ a.id = aid ∧
      ¬a.status = .cancelled ∧ a ∈ db.attendances ∧
      a' = { a with status := .confirmed } ∧
      db₁ = updAttRow db a.id .confirmed a.registrationDate := by
  unfold confirmAttendance at h₁
  split at h₁
  · simp at h₁
  next a ha =>
    split at h₁
    next er hcon => simp at h₁
    next a'' hcon =>
      simp only [Prod.mk.injEq, Except.ok.injEq] at h₁
      obtain ⟨ha', hdb⟩ := h₁
      subst hdb
      unfold Attendance.confirm at hcon
      split at hcon
      · simp at hcon
      next hnc =>
        have ha'' := Except.ok.inj hcon
        have hfind : db.attendances.find? (fun x => x.id == aid) =
            some a := ha
        have hk0 := List.find?_some hfind
        have hk : (a.id == aid) = true := hk0
        have haid : a.id = aid := beq_iff_eq.mp hk
        exact ⟨a, ha, haid, hnc, List.mem_of_find?_eq_some hfind,
          by rw [← ha', ← ha''], by rw [haid]⟩

/-- A failed confirmation leaves the store untouched. -/
theorem confirm_err {db db₂ : DB} {aid : Nat} {er : SvcError}
    (h₁ : confirmAttendance aid db = (.error er, db₂)) : db₂ = db := by
  unfold confirmAttendance at h₁
  split at h₁
  · simp only [Prod.mk.injEq] at h₁
    exact h₁.2.symm
  next a ha =>
    split at h₁
    next er' hcon =>
      simp only [Prod.mk.injEq] at h₁
      exact h₁.2.symm
    next a'' hcon => simp at h₁

/-- A successful mark-as-attended's store, explicitly: the found
non-cancelled row set to attended; events untouched. -/
theorem markAtt_shape {db db₁ : DB} {aid : Nat} {a' : Attendance}
    (h₁ : markAsAttended aid db = (.ok a', db₁)) :
    ∃ a, findAttendance db aid = some a ∧ a.id = aid ∧
      ¬a.status = .cancelled ∧ a ∈ db.attendances ∧
      a' = { a with status := .attended } ∧
      db₁ = updAttRow db a.id .attended a.registrationDate := by
  unfold markAsAttended at h₁
  split at h₁
  · simp at h₁
  next a ha =>
    split at h₁
    next er hcon => simp at h₁
    next a'' hcon =>
      simp only [Prod.mk.injEq, Except.ok.injEq] at h₁
      obtain ⟨ha', hdb⟩ := h₁
      subst hdb
      unfold Attendance.markAsAttended at hcon
      split at hcon
      · simp at hcon
      next hnc =>
        have ha'' := Except.ok.inj hcon
        have hfind : db.attendances.find? (fun x => x.id == aid) =
            some a := ha
        have hk0 := List.find?_some hfind
        have hk : (a.id == aid) = true := hk0
        have haid : a.id = aid := beq_iff_eq.mp hk
        exact ⟨a, ha, haid, hnc, List.mem_of_find?_eq_some hfind,
          by rw [← ha', ← ha''], by rw [haid]⟩

/-- A failed mark-as-attended leaves the store untouched. -/
theorem markAtt_err {db db₂ : DB} {aid : Nat} {er : SvcError}
    (h₁ : markAsAttended aid db = (.error er, db₂)) : db₂ = db := by
  unfold markAsAttended at h₁
  split at h₁
  · simp only [Prod.mk.injEq] at h₁
    exact h₁.2.symm
  next a ha =>
    split at h₁
    next er' hcon =>
      simp only [Prod.mk.injEq] at h₁
      exact h₁.2.symm
    next a'' hcon => simp at h₁

/-! ## C9 — the store invariants survive every operation -/

theorem goodB_intro {db : DB} (h1 : wfB db = true) (h2 : spotsInvB db = true)
    (h3 : countInvB db = true) (h4 : eventIdsClean db = true) :
    goodB db = true := by
  simp [goodB, h1, h2, h3, h4]

theorem eventsIds_map_update (es : List Event) (eid : String)
    (g : Event → Event) (hid : ∀ e, (g e).id = e.id) :
    ((es.map fun e => if e.id == eid then g e else e).map Event.id) =
      es.map Event.id := by
  rw [List.map_map]
  apply List.map_congr_left
  intro x _
  by_cases hx : x.id = eid <;> simp [Function.comp, hx, hid]

theorem clean_setEvents_map {db : DB} (db' : DB) (eid : String)
    (g : Event → Event) (hid : ∀ e, (g e).id = e.id)
    (hc : eventIdsClean db = true) :
    eventIdsClean (setEvents db'
      (db.events.map fun e => if e.id == eid then g e else e)) = true := by
  simp only [eventIdsClean, setEvents, List.all_eq_true] at hc ⊢
  intro e' he'
  rcases List.mem_map.1 he' with ⟨x, hx, rfl⟩
  by_cases hxe : x.id = eid
  · simpa [hxe, hid] using hc x hx
  · simpa [hxe] using hc x hx

theorem goodB_register (now : Int) (eid pid : String) (db : DB)
    (hg : goodB db = true) :
    goodB (registerAttendance now false eid pid db).2 = true := by
  obtain ⟨hwf, hs, hcnt, hcl⟩ := goodB_parts hg
  rcases hr : registerAttendance now false eid pid db with ⟨r, db₂⟩
  show goodB db₂ = true
  cases r with
  | error er =>
    rw [register_err hwf hs hr]
    exact hg
  | ok a =>
    have hs₂ : spotsInvB db₂ = true := by
      have := spotsInv_register now false eid pid db hs
      rw [hr] at this
      exact this
    have hwf₂ : wfB db₂ = true := by
      obtain ⟨ev, -, -, -, -, -, -, -, -, -, -, -, h12⟩ :=
        register_ok_spec hwf hr
      exact h12
    rcases register_shape hr with ⟨hpa, haeq, hdb⟩ |
        ⟨a₀, hpa, hst, hae₀, hmem, haeq, hdb⟩
    · subst hdb
      exact goodB_intro hwf₂ hs₂ (countInv_shape_insert eid pid now hcnt)
        (clean_setEvents_map _ eid _ (fun e => rfl) hcl)
    · subst hdb
      refine goodB_intro hwf₂ hs₂ ?_
        (clean_setEvents_map _ eid _ (fun e => rfl) hcl)
      rw [← hae₀]
      exact countInv_shape_reuse now (attsNodup_of_wf hwf) hmem hst hcnt

theorem goodB_cancel (aid : Nat) (db : DB) (hg : goodB db = true) :
    goodB (cancelAttendance false aid db).2 = true := by
  obtain ⟨hwf, hs, hcnt, hcl⟩ := goodB_parts hg
  rcases hr : cancelAttendance false aid db with ⟨r, db₂⟩
  show goodB db₂ = true
  cases r with
  | error er =>
    rw [cancel_err hwf hs hcnt hr]
    exact hg
  | ok a' =>
    obtain ⟨a, ha, haid, hnc, hmem, ha', hdb⟩ := cancel_shape hr
    subst hdb
    refine goodB_intro
      (wf_setEvents (eventsIds_map_update _ _ _ (fun e => rfl))
        (wf_updAttRow a.id .cancelled a.registrationDate hwf))
      ?_ ?_ (clean_setEvents_map _ a.eventId _ (fun e => rfl) hcl)
    · have := spotsInv_cancel false aid db hs
      rw [hr] at this
      exact this
    · exact countInv_shape_cancel (attsNodup_of_wf hwf) hmem hnc hcnt

theorem goodB_confirm (aid : Nat) (db : DB) (hg : goodB db = true) :
    goodB (confirmAttendance aid db).2 = true := by
  obtain ⟨hwf, hs, hcnt, hcl⟩ := goodB_parts hg
  rcases hr : confirmAttendance aid db with ⟨r, db₂⟩
  show goodB db₂ = true
  cases r with
  | error er =>
    rw [confirm_err hr]
    exact hg
  | ok a' =>
    obtain ⟨a, ha, haid, hnc, hmem, ha', hdb⟩ := confirm_shape hr
    subst hdb
    refine goodB_intro (wf_updAttRow a.id .confirmed a.registrationDate hwf)
      ?_ ?_ hcl
    · have := spotsInv_confirm aid db hs
      rw [hr] at this
      exact this
    · exact countInv_shape_status .confirmed a.registrationDate
        (attsNodup_of_wf hwf) hmem (by simp) hnc hcnt

theorem goodB_markAtt (aid : Nat) (db : DB) (hg : goodB db = true) :
    goodB (markAsAttended aid db).2 = true := by
  obtain ⟨hwf, hs, hcnt, hcl⟩ := goodB_parts hg
  rcases hr : markAsAttended aid db with ⟨r, db₂⟩
  show goodB db₂ = true
  cases r with
  | error er =>
    rw [markAtt_err hr]
    exact hg
  | ok a' =>
    obtain ⟨a, ha, haid, hnc, hmem, ha', hdb⟩ := markAtt_shape hr
    subst hdb
    refine goodB_intro (wf_updAttRow a.id .attended a.registrationDate hwf)
      ?_ ?_ hcl
    · have := spotsInv_markAsAttended aid db hs
      rw [hr] at this
      exact this
    · exact countInv_shape_status .attended a.registrationDate
        (attsNodup_of_wf hwf) hmem (by simp) hnc hcnt

theorem goodB_sopDB (now : Int) (op : SOp) (db : DB)
    (hg : goodB db = true) : goodB (sopDB now op db) = true := by
  cases op with
  | register eid pid => exact goodB_register now eid pid db hg
  | cancel aid => exact goodB_cancel aid db hg
  | confirm aid => exact goodB_confirm aid db hg
  | markAttended aid => exact goodB_markAtt aid db hg
  | getEvent i => exact hg
  | getAllEvents => exact hg
  | getAvailableEvents => exact hg
  | getAtts i => exact hg

/-! ## C9 — cache coherence survives every mutation's invalidation -/

/-- Events other than the updated one are found unchanged. -/
theorem findEvent_map_other {db : DB} (db' : DB) (eid : String)
    (g : Event → Event) (hid : ∀ e, (g e).id = e.id) (j : String)
    (hj : ¬j = eid) :
    findEvent (setEvents db'
      (db.events.map fun e => if e.id == eid then g e else e)) j =
      findEvent db j := by
  show (db.events.map fun e => if e.id == eid then g e else e).find?
      (fun e => e.id == j) = db.events.find? (fun e => e.id == j)
  rw [find?_map_comm _ _
    (by intro x; by_cases hx : x.id = eid <;> simp [hx, hid])]
  cases h : db.events.find? (fun e => e.id == j) with
  | none => rfl
  | some e =>
    have h0 := List.find?_some h
    have hk : e.id = j := beq_iff_eq.mp h0
    have hne : (e.id == eid) = false := by
      simp [hk]
      exact fun hc => hj hc
    simp [hne]
    exact fun hce => absurd (hk.symm.trans hce) hj

/-- Attendance lists of other events ignore a fresh row for `eid`. -/
theorem attsPure_register_insert (db : DB) (eid pid : String) (now : Int)
    (es : List Event) (j : String) (hj : ¬j = eid) :
    getAttendancesByEventPure (setEvents
      (insertAtt db ⟨db.nextAttendanceId, eid, pid, .registered, now⟩) es)
      j = getAttendancesByEventPure db j := by
  show (db.attendances ++
      [(⟨db.nextAttendanceId, eid, pid, .registered, now⟩ : Attendance)]).filter
      (fun a => a.eventId == j) =
    db.attendances.filter (fun a => a.eventId == j)
  rw [List.filter_append]
  have hne : ¬eid = j := fun h => hj h.symm
  simp [hne]

/-- Attendance lists of other events ignore a status/date update of a
row belonging to `a₀.eventId`. -/
theorem attsPure_updAttRow_other {db : DB} {a₀ : Attendance}
    (st : AttendanceStatus) (rd : Int)
    (hnd : (db.attendances.map Attendance.id).Nodup)
    (ha : a₀ ∈ db.attendances) (j : String) (hj : ¬j = a₀.eventId) :
    getAttendancesByEventPure (updAttRow db a₀.id st rd) j =
      getAttendancesByEventPure db j := by
  show (db.attendances.map fun x => if x.id == a₀.id then
      { x with status := st, registrationDate := rd } else x).filter
      (fun a => a.eventId == j) = _
  have hne : ¬a₀.eventId = j := fun h => hj h.symm
  rw [filter_map_toggle_skip hnd ha _ _ (by simp [hne]) (by simp [hne])]
  rfl

/-- `attsPure` ignores the events table. -/
theorem attsPure_setEvents (db : DB) (es : List Event) (j : String) :
    getAttendancesByEventPure (setEvents db es) j =
      getAttendancesByEventPure db j := rfl

theorem Coh_register (now : Int) (eid pid : String) (db : DB) (c : Cache)
    (hg : goodB db = true) (hc : Coh now db c) :
    Coh now (sopDB now (.register eid pid) db)
      (sopCacheInval now (.register eid pid) db c) := by
  obtain ⟨hwf, hs, hcnt, hcl⟩ := goodB_parts hg
  show Coh now (registerAttendance now false eid pid db).2
    (match (registerAttendance now false eid pid db).1 with
      | .ok _ => cacheDeleteKeys c (registerInvalidationKeys eid)
      | .error _ => c)
  rcases hr : registerAttendance now false eid pid db with ⟨r, db₂⟩
  cases r with
  | error er =>
    have hdb := register_err hwf hs hr
    subst hdb
    exact hc
  | ok a =>
    show Coh now db₂ (cacheDeleteKeys c (registerInvalidationKeys eid))
    intro en hen
    obtain ⟨henc, hkeys⟩ := mem_cacheDeleteKeys hen
    have hcoh := hc en henc
    rcases hcoh with ⟨i, e, hk, hv, hf⟩ | ⟨hk, hv⟩ | ⟨hk, hv⟩ | ⟨i, hk, hv⟩
    · have hine : ¬i = eid := by
        intro h
        exact hkeys (eventKey i)
          (by simp [registerInvalidationKeys, h]) hk
      refine Or.inl ⟨i, e, hk, hv, ?_⟩
      rcases register_shape hr with ⟨-, -, hdb⟩ | ⟨a₀, -, -, -, -, -, hdb⟩ <;>
        (subst hdb
         rw [findEvent_map_other _ eid
           (fun e => { e with availableSpots := e.availableSpots - 1 })
           (fun e => rfl) i hine]
         exact hf)
    · exact absurd hk
        (hkeys allEventsKey (by simp [registerInvalidationKeys]))
    · exact absurd hk
        (hkeys availEventsKey (by simp [registerInvalidationKeys]))
    · have hine : ¬i = eid := by
        intro h
        exact hkeys (attsKey i)
          (by simp [registerInvalidationKeys, h]) hk
      refine Or.inr (Or.inr (Or.inr ⟨i, hk, ?_⟩))
      rw [hv]
      rcases register_shape hr with ⟨-, -, hdb⟩ |
          ⟨a₀, -, -, hae₀, hmem, -, hdb⟩
      · subst hdb
        rw [attsPure_register_insert db eid pid now _ i hine]
      · subst hdb
        rw [attsPure_setEvents,
          attsPure_updAttRow_other .registered now (attsNodup_of_wf hwf)
            hmem i (by rw [hae₀]; exact hine)]

theorem Coh_cancel (now : Int) (aid : Nat) (db : DB) (c : Cache)
    (hg : goodB db = true) (hc : Coh now db c) :
    Coh now (sopDB now (.cancel aid) db)
      (sopCacheInval now (.cancel aid) db c) := by
  obtain ⟨hwf, hs, hcnt, hcl⟩ := goodB_parts hg
  show Coh now (cancelAttendance false aid db).2
    (match (cancelAttendance false aid db).1 with
      | .ok att => cacheDeleteKeys c (registerInvalidationKeys att.eventId)
      | .error _ => c)
  rcases hr : cancelAttendance false aid db with ⟨r, db₂⟩
  cases r with
  | error er =>
    have hdb := cancel_err hwf hs hcnt hr
    subst hdb
    exact hc
  | ok a' =>
    obtain ⟨a, ha, haid, hnc, hmem, ha', hdb⟩ := cancel_shape hr
    subst hdb
    subst ha'
    show Coh now _ (cacheDeleteKeys c (registerInvalidationKeys a.eventId))
    intro en hen
    obtain ⟨henc, hkeys⟩ := mem_cacheDeleteKeys hen
    have hcoh := hc en henc
    rcases hcoh with ⟨i, e, hk, hv, hf⟩ | ⟨hk, hv⟩ | ⟨hk, hv⟩ | ⟨i, hk, hv⟩
    · have hine : ¬i = a.eventId := by
        intro h
        exact hkeys (eventKey i)
          (by simp [registerInvalidationKeys, h]) hk
      refine Or.inl ⟨i, e, hk, hv, ?_⟩
      rw [findEvent_map_other _ a.eventId
        (fun e => { e with availableSpots := e.availableSpots + 1 })
        (fun e => rfl) i hine]
      exact hf
    · exact absurd hk
        (hkeys allEventsKey (by simp [registerInvalidationKeys]))
    · exact absurd hk
        (hkeys availEventsKey (by simp [registerInvalidationKeys]))
    · have hine : ¬i = a.eventId := by
        intro h
        exact hkeys (attsKey i)
          (by simp [registerInvalidationKeys, h]) hk
      refine Or.inr (Or.inr (Or.inr ⟨i, hk, ?_⟩))
      rw [hv]
      rw [attsPure_setEvents,
        attsPure_updAttRow_other .cancelled a.registrationDate
          (attsNodup_of_wf hwf) hmem i hine]

theorem Coh_confirm (now : Int) (aid : Nat) (db : DB) (c : Cache)
    (hg : goodB db = true) (hc : Coh now db c) :
    Coh now (sopDB now (.confirm aid) db)
      (sopCacheInval now (.confirm aid) db c) := by
  obtain ⟨hwf, hs, hcnt, hcl⟩ := goodB_parts hg
  show Coh now (confirmAttendance aid db).2
    (match (confirmAttendance aid db).1 with
      | .ok att => cacheDeleteKeys c (attInvalidationKeys att.eventId)
      | .error _ => c)
  rcases hr : confirmAttendance aid db with ⟨r, db₂⟩
  cases r with
  | error er =>
    have hdb := confirm_err hr
    subst hdb
    exact hc
  | ok a' =>
    obtain ⟨a, ha, haid, hnc, hmem, ha', hdb⟩ := confirm_shape hr
    subst hdb
    subst ha'
    show Coh now _ (cacheDeleteKeys c (attInvalidationKeys a.eventId))
    intro en hen
    obtain ⟨henc, hkeys⟩ := mem_cacheDeleteKeys hen
    have hcoh := hc en henc
    rcases hcoh with ⟨i, e, hk, hv, hf⟩ | ⟨hk, hv⟩ | ⟨hk, hv⟩ | ⟨i, hk, hv⟩
    · exact Or.inl ⟨i, e, hk, hv, hf⟩
    · exact Or.inr (Or.inl ⟨hk, hv⟩)
    · exact Or.inr (Or.inr (Or.inl ⟨hk, hv⟩))
    · have hine : ¬i = a.eventId := by
        intro h
        exact hkeys (attsKey i)
          (by simp [attInvalidationKeys, h]) hk
      refine Or.inr (Or.inr (Or.inr ⟨i, hk, ?_⟩))
      rw [hv]
      rw [attsPure_updAttRow_other .confirmed a.registrationDate
        (attsNodup_of_wf hwf) hmem i hine]

theorem Coh_markAtt (now : Int) (aid : Nat) (db : DB) (c : Cache)
    (hg : goodB db = true) (hc : Coh now db c) :
    Coh now (sopDB now (.markAttended aid) db)
      (sopCacheInval now (.markAttended aid) db c) := by
  obtain ⟨hwf, hs, hcnt, hcl⟩ := goodB_parts hg
  show Coh now (markAsAttended aid db).2
    (match (markAsAttended aid db).1 with
      | .ok att => cacheDeleteKeys c (attInvalidationKeys att.eventId)
      | .error _ => c)
  rcases hr : markAsAttended aid db with ⟨r, db₂⟩
  cases r with
  | error er =>
    have hdb := markAtt_err hr
    subst hdb
    exact hc
  | ok a' =>
    obtain ⟨a, ha, haid, hnc, hmem, ha', hdb⟩ := markAtt_shape hr
    subst hdb
    subst ha'
    show Coh now _ (cacheDeleteKeys c (attInvalidationKeys a.eventId))
    intro en hen
    obtain ⟨henc, hkeys⟩ := mem_cacheDeleteKeys hen
    have hcoh := hc en henc
    rcases hcoh with ⟨i, e, hk, hv, hf⟩ | ⟨hk, hv⟩ | ⟨hk, hv⟩ | ⟨i, hk, hv⟩
    · exact Or.inl ⟨i, e, hk, hv, hf⟩
    · exact Or.inr (Or.inl ⟨hk, hv⟩)
    · exact Or.inr (Or.inr (Or.inl ⟨hk, hv⟩))
    · have hine : ¬i = a.eventId := by
        intro h
        exact hkeys (attsKey i)
          (by simp [attInvalidationKeys, h]) hk
      refine Or.inr (Or.inr (Or.inr ⟨i, hk, ?_⟩))
      rw [hv]
      rw [attsPure_updAttRow_other .attended a.registrationDate
        (attsNodup_of_wf hwf) hmem i hine]

/-! ## C9 — the read-through wrappers agree with the cache-free reads -/

theorem getEventByIdC_miss {now : Int} {i : String} {db : DB} {c : Cache}
    {ov : Option CVal} {c₁ : Cache}
    (hg : cacheGet now c (eventKey i) = (ov, c₁))
    (hov : ∀ e, ¬ov = some (.ev e)) :
    getEventByIdC now i db c =
      (match findEvent db i with
       | some e => (some e, cacheSet now c₁ (eventKey i) (.ev e) (some 300))
       | none => (none, c₁)) := by
  unfold getEventByIdC
  rw [hg]
  cases ov with
  | none => rfl
  | some v =>
    cases v with
    | ev e => exact absurd rfl (hov e)
    | evs l => rfl
    | atts l => rfl

theorem getEventByIdC_agree (now : Int) (i : String) (db : DB) (c : Cache)
    (hc : Coh now db c) :
    (getEventByIdC now i db c).1 = getEventByIdPure db i ∧
      Coh now db (getEventByIdC now i db c).2 := by
  rcases hg : cacheGet now c (eventKey i) with ⟨ov, c₁⟩
  have hsub : ∀ en ∈ c₁, en ∈ c := by
    have h2 := @cacheGet_sub now c (eventKey i)
    rw [hg] at h2
    exact h2
  by_cases hhit : ∃ e, ov = some (.ev e)
  · obtain ⟨e, rfl⟩ := hhit
    obtain ⟨en, hmem, hk, hv⟩ := cacheGet_hit hg
    have hcoh := hc en hmem
    have hfe : findEvent db i = some e := by
      rcases hcoh with ⟨i', e', hk', hv', hf'⟩ | ⟨hk', hv'⟩ |
          ⟨hk', hv'⟩ | ⟨i', hk', hv'⟩
      · have hii : i = i' := eventKey_inj (hk.symm.trans hk')
        have hee : e = e' := CVal.ev.inj (hv.symm.trans hv')
        rw [hii, hee]
        exact hf'
      · rw [hv] at hv'
        simp at hv'
      · rw [hv] at hv'
        simp at hv'
      · rw [hv] at hv'
        simp at hv'
    constructor
    · unfold getEventByIdC
      rw [hg]
      show some e = getEventByIdPure db i
      exact hfe.symm
    · unfold getEventByIdC
      rw [hg]
      show Coh now db c₁
      exact Coh_sub hsub hc
  · have hov : ∀ e, ¬ov = some (.ev e) := fun e he => hhit ⟨e, he⟩
    have heq := @getEventByIdC_miss now i db c ov c₁ hg hov
    rw [heq]
    cases hf : findEvent db i with
    | some e =>
      refine ⟨hf.symm, ?_⟩
      intro en hen
      rcases mem_cacheSet hen with hin | rfl
      · exact hc en (hsub en hin)
      · exact Or.inl ⟨i, e, rfl, rfl, hf⟩
    | none => exact ⟨hf.symm, Coh_sub hsub hc⟩

theorem getAllEventsC_miss {now : Int} {db : DB} {c : Cache}
    {ov : Option CVal} {c₁ : Cache}
    (hg : cacheGet now c allEventsKey = (ov, c₁))
    (hov : ∀ l, ¬ov = some (.evs l)) :
    getAllEventsC now db c =
      (getAllEventsPure db,
        cacheSet now c₁ allEventsKey (.evs (getAllEventsPure db))
          (some 120)) := by
  unfold getAllEventsC
  rw [hg]
  cases ov with
  | none => rfl
  | some v =>
    cases v with
    | ev e => rfl
    | evs l => exact absurd rfl (hov l)
    | atts l => rfl

theorem getAllEventsC_agree (now : Int) (db : DB) (c : Cache)
    (hc : Coh now db c) :
    (getAllEventsC now db c).1 = getAllEventsPure db ∧
      Coh now db (getAllEventsC now db c).2 := by
  rcases hg : cacheGet now c allEventsKey with ⟨ov, c₁⟩
  have hsub : ∀ en ∈ c₁, en ∈ c := by
    have h2 := @cacheGet_sub now c allEventsKey
    rw [hg] at h2
    exact h2
  by_cases hhit : ∃ l, ov = some (.evs l)
  · obtain ⟨l, rfl⟩ := hhit
    obtain ⟨en, hmem, hk, hv⟩ := cacheGet_hit hg
    have hcoh := hc en hmem
    have hfe : l = getAllEventsPure db := by
      rcases hcoh with ⟨i', e', hk', hv', hf'⟩ | ⟨hk', hv'⟩ |
          ⟨hk', hv'⟩ | ⟨i', hk', hv'⟩
      · rw [hv] at hv'
        simp at hv'
      · exact CVal.evs.inj (hv.symm.trans hv')
      · exact absurd (hk.symm.trans hk') allKey_ne_availKey
      · rw [hv] at hv'
        simp at hv'
    constructor
    · unfold getAllEventsC
      rw [hg]
      exact hfe
    · unfold getAllEventsC
      rw [hg]
      show Coh now db c₁
      exact Coh_sub hsub hc
  · have hov : ∀ l, ¬ov = some (.evs l) := fun l he => hhit ⟨l, he⟩
    have heq := @getAllEventsC_miss now db c ov c₁ hg hov
    rw [heq]
    refine ⟨rfl, ?_⟩
    intro en hen
    rcases mem_cacheSet hen with hin | rfl
    · exact hc en (hsub en hin)
    · exact Or.inr (Or.inl ⟨rfl, rfl⟩)

theorem getAvailableEventsC_miss {now : Int} {db : DB} {c : Cache}
    {ov : Option CVal} {c₁ : Cache}
    (hg : cacheGet now c availEventsKey = (ov, c₁))
    (hov : ∀ l, ¬ov = some (.evs l)) :
    getAvailableEventsC now db c =
      (getAvailableEventsPure now db,
        cacheSet now c₁ availEventsKey
          (.evs (getAvailableEventsPure now db)) (some 60)) := by
  unfold getAvailableEventsC
  rw [hg]
  cases ov with
  | none => rfl
  | some v =>
    cases v with
    | ev e => rfl
    | evs l => exact absurd rfl (hov l)
    | atts l => rfl

theorem getAvailableEventsC_agree (now : Int) (db : DB) (c : Cache)
    (hc : Coh now db c) :
    (getAvailableEventsC now db c).1 = getAvailableEventsPure now db ∧
      Coh now db (getAvailableEventsC now db c).2 := by
  rcases hg : cacheGet now c availEventsKey with ⟨ov, c₁⟩
  have hsub : ∀ en ∈ c₁, en ∈ c := by
    have h2 := @cacheGet_sub now c availEventsKey
    rw [hg] at h2
    exact h2
  by_cases hhit : ∃ l, ov = some (.evs l)
  · obtain ⟨l, rfl⟩ := hhit
    obtain ⟨en, hmem, hk, hv⟩ := cacheGet_hit hg
    have hcoh := hc en hmem
    have hfe : l = getAvailableEventsPure now db := by
      rcases hcoh with ⟨i', e', hk', hv', hf'⟩ | ⟨hk', hv'⟩ |
          ⟨hk', hv'⟩ | ⟨i', hk', hv'⟩
      · rw [hv] at hv'
        simp at hv'
      · exact absurd (hk'.symm.trans hk) allKey_ne_availKey
      · exact CVal.evs.inj (hv.symm.trans hv')
      · rw [hv] at hv'
        simp at hv'
    constructor
    · unfold getAvailableEventsC
      rw [hg]
      exact hfe
    · unfold getAvailableEventsC
      rw [hg]
      show Coh now db c₁
      exact Coh_sub hsub hc
  · have hov : ∀ l, ¬ov = some (.evs l) := fun l he => hhit ⟨l, he⟩
    have heq := @getAvailableEventsC_miss now db c ov c₁ hg hov
    rw [heq]
    refine ⟨rfl, ?_⟩
    intro en hen
    rcases mem_cacheSet hen with hin | rfl
    · exact hc en (hsub en hin)
    · exact Or.inr (Or.inr (Or.inl ⟨rfl, rfl⟩))

theorem getAttendancesByEventC_miss {now : Int} {i : String} {db : DB}
    {c : Cache} {ov : Option CVal} {c₁ : Cache}
    (hg : cacheGet now c (attsKey i) = (ov, c₁))
    (hov : ∀ l, ¬ov = some (.atts l)) :
    getAttendancesByEventC now i db c =
      (getAttendancesByEventPure db i,
        cacheSet now c₁ (attsKey i)
          (.atts (getAttendancesByEventPure db i)) (some 120)) := by
  unfold getAttendancesByEventC
  rw [hg]
  cases ov with
  | none => rfl
  | some v =>
    cases v with
    | ev e => rfl
    | evs l => rfl
    | atts l => exact absurd rfl (hov l)

theorem getAttendancesByEventC_agree (now : Int) (i : String) (db : DB)
    (c : Cache) (hc : Coh now db c) :
    (getAttendancesByEventC now i db c).1 = getAttendancesByEventPure db i ∧
      Coh now db (getAttendancesByEventC now i db c).2 := by
  rcases hg : cacheGet now c (attsKey i) with ⟨ov, c₁⟩
  have hsub : ∀ en ∈ c₁, en ∈ c := by
    have h2 := @cacheGet_sub now c (attsKey i)
    rw [hg] at h2
    exact h2
  by_cases hhit : ∃ l, ov = some (.atts l)
  · obtain ⟨l, rfl⟩ := hhit
    obtain ⟨en, hmem, hk, hv⟩ := cacheGet_hit hg
    have hcoh := hc en hmem
    have hfe : l = getAttendancesByEventPure db i := by
      rcases hcoh with ⟨i', e', hk', hv', hf'⟩ | ⟨hk', hv'⟩ |
          ⟨hk', hv'⟩ | ⟨i', hk', hv'⟩
      · rw [hv] at hv'
        simp at hv'
      · rw [hv] at hv'
        simp at hv'
      · rw [hv] at hv'
        simp at hv'
      · have hii : i = i' := attsKey_inj (hk.symm.trans hk')
        rw [hii]
        exact CVal.atts.inj (hv.symm.trans hv')
    constructor
    · unfold getAttendancesByEventC
      rw [hg]
      exact hfe
    · unfold getAttendancesByEventC
      rw [hg]
      show Coh now db c₁
      exact Coh_sub hsub hc
  · have hov : ∀ l, ¬ov = some (.atts l) := fun l he => hhit ⟨l, he⟩
    have heq := @getAttendancesByEventC_miss now i db c ov c₁ hg hov
    rw [heq]
    refine ⟨rfl, ?_⟩
    intro en hen
    rcases mem_cacheSet hen with hin | rfl
    · exact hc en (hsub en hin)
    · exact Or.inr (Or.inr (Or.inr ⟨i, rfl, rfl⟩))

theorem Coh_sopStep (now : Int) (op : SOp) (db : DB) (c : Cache)
    (hg : goodB db = true) (hc : Coh now db c) :
    Coh now (sopDB now op db) (sopCacheInval now op db c) := by
  cases op with
  | register eid pid => exact Coh_register now eid pid db c hg hc
  | cancel aid => exact Coh_cancel now aid db c hg hc
  | confirm aid => exact Coh_confirm now aid db c hg hc
  | markAttended aid => exact Coh_markAtt now aid db c hg hc
  | getEvent i => exact hc
  | getAllEvents => exact hc
  | getAvailableEvents => exact hc
  | getAtts i => exact hc

/-! ## C9 — transparency at a fixed instant, staleness across instants -/

theorem runCached_getEvent (now : Int) (i : String) (ops : List SOp)
    (db : DB) (c : Cache) :
    runCached now (.getEvent i :: ops) db c =
      (Out.oEvent (getEventByIdC now i db c).1 ::
          (runCached now ops db (getEventByIdC now i db c).2).1,
        (runCached now ops db (getEventByIdC now i db c).2).2) := by
  simp only [runCached]

theorem runCached_getAllEvents (now : Int) (ops : List SOp)
    (db : DB) (c : Cache) :
    runCached now (.getAllEvents :: ops) db c =
      (Out.oEvents (getAllEventsC now db c).1 ::
          (runCached now ops db (getAllEventsC now db c).2).1,
        (runCached now ops db (getAllEventsC now db c).2).2) := by
  simp only [runCached]

theorem runCached_getAvailableEvents (now : Int) (ops : List SOp)
    (db : DB) (c : Cache) :
    runCached now (.getAvailableEvents :: ops) db c =
      (Out.oEvents (getAvailableEventsC now db c).1 ::
          (runCached now ops db (getAvailableEventsC now db c).2).1,
        (runCached now ops db (getAvailableEventsC now db c).2).2) := by
  simp only [runCached]

theorem runCached_getAtts (now : Int) (i : String) (ops : List SOp)
    (db : DB) (c : Cache) :
    runCached now (.getAtts i :: ops) db c =
      (Out.oAtts (getAttendancesByEventC now i db c).1 ::
          (runCached now ops db (getAttendancesByEventC now i db c).2).1,
        (runCached now ops db (getAttendancesByEventC now i db c).2).2) := by
  simp only [runCached]

theorem runPure_getEvent (now : Int) (i : String) (ops : List SOp)
    (db : DB) :
    runPure now (.getEvent i :: ops) db =
      (Out.oEvent (getEventByIdPure db i) :: (runPure now ops db).1,
        (runPure now ops db).2) := by
  simp only [runPure]

theorem runPure_getAllEvents (now : Int) (ops : List SOp) (db : DB) :
    runPure now (.getAllEvents :: ops) db =
      (Out.oEvents (getAllEventsPure db) :: (runPure now ops db).1,
        (runPure now ops db).2) := by
  simp only [runPure]

theorem runPure_getAvailableEvents (now : Int) (ops : List SOp) (db : DB) :
    runPure now (.getAvailableEvents :: ops) db =
      (Out.oEvents (getAvailableEventsPure now db) :: (runPure now ops db).1,
        (runPure now ops db).2) := by
  simp only [runPure]

theorem runPure_getAtts (now : Int) (i : String) (ops : List SOp) (db : DB) :
    runPure now (.getAtts i :: ops) db =
      (Out.oAtts (getAttendancesByEventPure db i) :: (runPure now ops db).1,
        (runPure now ops db).2) := by
  simp only [runPure]

/-- Outputs of the cached and cache-free runs coincide from any
coherent cache over an invariant-satisfying store. -/
theorem runs_agree (now : Int) (ops : List SOp) :
    ∀ db c, goodB db = true → Coh now db c →
      (runCached now ops db c).1 = (runPure now ops db).1 := by
  induction ops with
  | nil =>
    intro db c hg hc
    rfl
  | cons op ops ih =>
    intro db c hg hc
    cases op with
    | getEvent i =>
      obtain ⟨hout, hcoh⟩ := getEventByIdC_agree now i db c hc
      rw [runCached_getEvent, runPure_getEvent]
      show Out.oEvent (getEventByIdC now i db c).1 ::
          (runCached now ops db (getEventByIdC now i db c).2).1 =
        Out.oEvent (getEventByIdPure db i) :: (runPure now ops db).1
      rw [hout, ih db _ hg hcoh]
    | getAllEvents =>
      obtain ⟨hout, hcoh⟩ := getAllEventsC_agree now db c hc
      rw [runCached_getAllEvents, runPure_getAllEvents]
      show Out.oEvents (getAllEventsC now db c).1 ::
          (runCached now ops db (getAllEventsC now db c).2).1 =
        Out.oEvents (getAllEventsPure db) :: (runPure now ops db).1
      rw [hout, ih db _ hg hcoh]
    | getAvailableEvents =>
      obtain ⟨hout, hcoh⟩ := getAvailableEventsC_agree now db c hc
      rw [runCached_getAvailableEvents, runPure_getAvailableEvents]
      show Out.oEvents (getAvailableEventsC now db c).1 ::
          (runCached now ops db (getAvailableEventsC now db c).2).1 =
        Out.oEvents (getAvailableEventsPure now db) :: (runPure now ops db).1
      rw [hout, ih db _ hg hcoh]
    | getAtts i =>
      obtain ⟨hout, hcoh⟩ := getAttendancesByEventC_agree now i db c hc
      rw [runCached_getAtts, runPure_getAtts]
      show Out.oAtts (getAttendancesByEventC now i db c).1 ::
          (runCached now ops db (getAttendancesByEventC now i db c).2).1 =
        Out.oAtts (getAttendancesByEventPure db i) :: (runPure now ops db).1
      rw [hout, ih db _ hg hcoh]
    | register eid pid =>
      show (runCached now ops (sopDB now (.register eid pid) db)
          (sopCacheInval now (.register eid pid) db c)).1 =
        (runPure now ops (sopDB now (.register eid pid) db)).1
      exact ih _ _ (goodB_sopDB now (.register eid pid) db hg)
        (Coh_sopStep now (.register eid pid) db c hg hc)
    | cancel aid =>
      show (runCached now ops (sopDB now (.cancel aid) db)
          (sopCacheInval now (.cancel aid) db c)).1 =
        (runPure now ops (sopDB now (.cancel aid) db)).1
      exact ih _ _ (goodB_sopDB now (.cancel aid) db hg)
        (Coh_sopStep now (.cancel aid) db c hg hc)
    | confirm aid =>
      show (runCached now ops (sopDB now (.confirm aid) db)
          (sopCacheInval now (.confirm aid) db c)).1 =
        (runPure now ops (sopDB now (.confirm aid) db)).1
      exact ih _ _ (goodB_sopDB now (.confirm aid) db hg)
        (Coh_sopStep now (.confirm aid) db c hg hc)
    | markAttended aid =>
      show (runCached now ops (sopDB now (.markAttended aid) db)
          (sopCacheInval now (.markAttended aid) db c)).1 =
        (runPure now ops (sopDB now (.markAttended aid) db)).1
      exact ih _ _ (goodB_sopDB now (.markAttended aid) db hg)
        (Coh_sopStep now (.markAttended aid) db c hg hc)

/-- C9 (amended): at a fixed instant (a single value of `NOW()` /
`Date.now()` across the run), starting from an empty cache, with the
store satisfying the primary-key, seat-bounds and seats/rows-accounting
invariants and colon-free event ids, and with no mid-transaction
storage failures, every run of the four cited read operations
interleaved with the attendance mutations returns exactly the outputs
of the same run with the cache layer disabled.  The claim's unqualified
form is refuted by `available_events_cached_read_stale`: a cached
`events:available` list computed at an earlier instant is served
unchanged at a later instant, while the cache-free read's `date >
NOW()` filter has moved on. -/
theorem cache_transparency_fixed_instant (now : Int) (ops : List SOp)
    (db : DB) (hg : goodB db = true) :
    (runCached now ops db []).1 = (runPure now ops db).1 :=
  runs_agree now ops db [] hg (fun en hen => absurd hen (List.not_mem_nil en))

theorem cache_transparency_fixed_instant_witness :
    goodB dbC9w = true ∧
      (runCached 7 opsC9w dbC9w []).1 = (runPure 7 opsC9w dbC9w).1 :=
  ⟨by decide, cache_transparency_fixed_instant 7 opsC9w dbC9w (by decide)⟩

/-- C9 counterexample to the unqualified claim: with the cache layer
present, `getAvailableEvents` served at instant 6 from a cache filled
at instant 4 (TTL 60 s) still lists the event dated 5, while the
cache-free read at instant 6 correctly filters it out — the cached and
cache-free embeddings differ on a read result over the same persisted
state. -/
theorem available_events_cached_read_stale :
    ¬((getAvailableEventsC 6 dbC9 (getAvailableEventsC 4 dbC9 []).2).1 =
      getAvailableEventsPure 6 dbC9) := by
  decide
